import Mathlib

/-!
Shallow embedding of the core of the `neos` search engine (Rust) and proofs
about it.  Rust `u64`/`usize` values are modelled as `Nat` with explicit
`% 2 ^ 64` where wraparound matters; a Rust panic is modelled by `none` /
`Except.error`; fallible operations return `Except`.
-/

namespace Neos

/-- The modulus of `u64` arithmetic. -/
def U64MOD : Nat := 2 ^ 64

/-! ## Integer map — `src/core/src/intmap.rs`

`IntMap` is the bin-chained map specialised for `u64` keys.  The target is
64-bit, so `as usize` on a `u64` is the identity. -/

/-- `Key::BIG_PRIME` for `u64` (`src/core/src/intmap.rs`, `impl Key for u64`):
the decimal literal `11400714819323198549` copied from the source. -/
def BIG_PRIME : Nat := 11400714819323198549

/-- `u64::wrapping_mul` on the `Nat` model of `u64`. -/
def wrappingMul (a b : Nat) : Nat := a * b % U64MOD

/-- `modulus_usize`: `self as usize % rhs`.  Rust `%` panics on a zero divisor;
the panic is modelled by `none`. -/
def modulusUsize (a rhs : Nat) : Option Nat :=
  if rhs = 0 then none else some (a % rhs)

/-- The map `IntMap<K, V>` for `K = u64`: a vector of bins, each a vector of
`(key, value)` pairs, plus the number of distinct keys. -/
structure IntMap (V : Type) where
  bins : List (List (Nat × V))
  len : Nat

/-- `IntMap::with_capacity(cap)`: `cap` empty bins, `len = 0`. -/
def IntMap.withCapacity (V : Type) (cap : Nat) : IntMap V :=
  { bins := List.replicate cap [], len := 0 }

/-- `IntMap::new()` = `with_capacity(2)`. -/
def IntMap.mk2 (V : Type) : IntMap V := IntMap.withCapacity V 2

/-- `IntMap::bin_idx`: `key.wrapping_mul(K::BIG_PRIME).modulus_usize(self.bins.len())`.
`none` models the division-by-zero panic when there are no bins. -/
def IntMap.binIdx (m : IntMap V) (key : Nat) : Option Nat :=
  modulusUsize (wrappingMul key BIG_PRIME) m.bins.length

/-- The growth threshold and the new bin count of `grow`:
`(self.bins.len() as f64 * 1.5) as usize`.  For every `n < 2 ^ 52` the `f64`
product `n * 1.5` is exact and `as usize` truncates toward zero, so the value
is `⌊3 n / 2⌋`, which is what `3 * n / 2` computes on `Nat`. -/
def growThreshold (n : Nat) : Nat := 3 * n / 2

/-- One step of insertion sort by key, used to model the bin sort. -/
def insertSorted (p : Nat × V) : List (Nat × V) → List (Nat × V)
  | [] => [p]
  | q :: t => if p.1 ≤ q.1 then p :: q :: t else q :: insertSorted p t

/-- `sort_unstable_by(|(a, _), (b, _)| a.cmp(b))` on one bin: sort by key.
A bin never holds two pairs with the same key, so any comparison sort
produces the same list as the source's unstable sort; insertion sort is used
so that concrete maps compute by kernel reduction. -/
def sortBin (bin : List (Nat × V)) : List (Nat × V) :=
  bin.foldr insertSorted []

/-- `IntMap::grow`: allocate `(len * 1.5) as usize` fresh bins, re-insert every
pair at its new `bin_idx`, then sort each bin.  `none` models the panic of
`bin_idx` when the new bin count is zero while a pair must be re-inserted. -/
def IntMap.grow (m : IntMap V) : Option (IntMap V) :=
  let newLen := growThreshold m.bins.length
  let start : List (List (Nat × V)) := List.replicate newLen []
  (m.bins.flatten.foldlM
      (fun (bins : List (List (Nat × V))) (kv : Nat × V) =>
        match modulusUsize (wrappingMul kv.1 BIG_PRIME) bins.length with
        | none => none
        | some bi => some (bins.set bi (bins.getD bi [] ++ [kv])))
      start).map
    (fun (bins : List (List (Nat × V))) => { bins := bins.map sortBin, len := m.len })

/-- The body of `IntMap::insert` after the optional growth step: compute
`bin_idx`, then either replace the pair with the same key in its bin or push
the new pair and re-sort the bin.  `none` models the `bin_idx` panic. -/
def IntMap.insertCore (m : IntMap V) (key : Nat) (value : V) : Option (IntMap V) :=
  match m.binIdx key with
  | none => none
  | some bi =>
    let bin := m.bins.getD bi []
    match bin.findIdx? (fun p => p.1 = key) with
    | some idx => some { m with bins := m.bins.set bi (bin.set idx (key, value)) }
    | none =>
      some { bins := m.bins.set bi (sortBin (bin ++ [(key, value)])),
             len := m.len + 1 }

/-- `IntMap::insert`: grow when `len >= (bins.len() as f64 * 1.5) as usize`,
then run the insertion body. -/
def IntMap.insert (m : IntMap V) (key : Nat) (value : V) : Option (IntMap V) :=
  (if growThreshold m.bins.length ≤ m.len then m.grow else some m).bind
    (fun m => m.insertCore key value)

/-- `binary_search_by(|(stored_key, _)| stored_key.cmp(key))` on a by-key
sorted bin, observationally: the entry with the searched key when present.
On a sorted duplicate-free bin the binary search succeeds exactly on the
entry whose key matches. -/
def binSearch (bin : List (Nat × V)) (key : Nat) : Option V :=
  (bin.find? (fun p => p.1 == key)).map Prod.snd

/-- `IntMap::get`: `bin_idx` then binary search in that bin.  The outer `none`
models the `bin_idx` panic; the inner option is the lookup result. -/
def IntMap.get (m : IntMap V) (key : Nat) : Option (Option V) :=
  (m.binIdx key).map (fun bi => binSearch (m.bins.getD bi []) key)

/-- `IntMap::contains_key`: `self.get(key).is_some()`. -/
def IntMap.containsKey (m : IntMap V) (key : Nat) : Option Bool :=
  (m.get key).map Option.isSome

/-- `FromIterator for IntMap`: `with_capacity(upper)` when the size hint has
an upper bound, else `new()`; then insert every item.  `items` is the
sequence the iterator yields and `upper` its size-hint upper bound. -/
def IntMap.fromIter (V : Type) (upper : Option Nat) (items : List (Nat × V)) :
    Option (IntMap V) :=
  let start := match upper with
    | some cap => IntMap.withCapacity V cap
    | none => IntMap.mk2 V
  items.foldlM (fun m kv => m.insert kv.1 kv.2) start

/-! ## DHT keys and client routing — `src/core/src/ampc/dht/key.rs`,
`src/core/src/ampc/dht/client.rs` -/

/-- `u64::to_le_bytes`: the eight little-endian bytes of a `u64`. -/
def toLeBytes8 (n : Nat) : List Nat :=
  [n % 256, n / 2 ^ 8 % 256, n / 2 ^ 16 % 256, n / 2 ^ 24 % 256,
   n / 2 ^ 32 % 256, n / 2 ^ 40 % 256, n / 2 ^ 48 % 256, n / 2 ^ 56 % 256]

/-- `Key` (`src/core/src/ampc/dht/key.rs`).  `NodeID` and `ShardId` types are
not under `src/`; modelled from the spec: `NodeId` is a stable 64-bit
identifier and `ShardId` a small integer, both read through `as_u64` in
`key.rs`.  The `String` payload is modelled by its UTF-8 byte list. -/
inductive Key where
  | string (bytes : List Nat)
  | nodeID (id : Nat)
  | unit
  | shardId (id : Nat)
  | u64 (n : Nat)

/-- `KeyTrait::as_bytes` per variant: raw bytes for `String`,
`to_le_bytes().to_vec()` for the numeric variants, `vec![]` for `Unit`. -/
def Key.asBytes : Key → List Nat
  | .string b => b
  | .nodeID id => toLeBytes8 id
  | .unit => []
  | .shardId id => toLeBytes8 id
  | .u64 n => toLeBytes8 n

abbrev ShardId := Nat

/-- Socket addresses are only stored and compared by the modelled code, never
inspected; modelled as strings. -/
abbrev SocketAddr := String

/-- `BTreeMap<ShardId, Shard>::entry(sid).or_insert_with(Shard::new)` followed
by `Shard::add_node(a)`: insert into a key-sorted association list, appending
the address to the shard's replica vector. -/
def mapAddNode : List (ShardId × List SocketAddr) → ShardId → SocketAddr →
    List (ShardId × List SocketAddr)
  | [], sid, a => [(sid, [a])]
  | (k, ns) :: rest, sid, a =>
    if sid < k then (sid, [a]) :: (k, ns) :: rest
    else if sid = k then (k, ns ++ [a]) :: rest
    else (k, ns) :: mapAddNode rest sid a

/-- `Client` (`src/core/src/ampc/dht/client.rs`): the `ShardId` vector `ids`
and the `BTreeMap<ShardId, Shard>`, the latter modelled as a key-sorted
association list mapping each shard to its vector of replica addresses. -/
structure Client where
  ids : List ShardId
  shards : List (ShardId × List SocketAddr)

/-- `Client::new(members)`: group the members by shard, then take the map's
keys — in the `BTreeMap`'s sorted order — as `ids`. -/
def Client.new (members : List (ShardId × SocketAddr)) : Client :=
  let shards := members.foldl (fun m p => mapAddNode m p.1 p.2) []
  { shards := shards, ids := shards.map Prod.fst }

/-- `Client::add_node`: add the address to the shard (inserting the shard if
absent) and recompute `ids` from the map keys, atomically. -/
def Client.addNode (c : Client) (sid : ShardId) (addr : SocketAddr) : Client :=
  let shards := mapAddNode c.shards sid addr
  { shards := shards, ids := shards.map Prod.fst }

/-- `Client::shard_id_for_key`: `Err("No shards")` on an empty id vector, else
`ids[hash as usize % ids.len()]`.  `fast_stable_hash_64` lives in the `bloom`
crate, which is not under `src/`; modelled from the spec as an arbitrary
stable hash `h` of the key bytes.  The target is 64-bit, so `as usize` does
not truncate, and the index is `< ids.len()`, so `getD` returns the indexed
element. -/
def shardIdForKey (h : List Nat → Nat) (c : Client) (key : List Nat) :
    Except String ShardId :=
  if c.ids.isEmpty then .error "No shards"
  else .ok (c.ids.getD (h key % c.ids.length) 0)

/-- `Client::get` routes through `shard_for_key(&key.as_bytes())`; this is
the shard the lookup is sent to. -/
def Client.getRoute (h : List Nat → Nat) (c : Client) (k : Key) :
    Except String ShardId :=
  shardIdForKey h c k.asBytes

/-- `Client::set` routes through `shard_for_key(&key.as_bytes())`. -/
def Client.setRoute (h : List Nat → Nat) (c : Client) (k : Key) :
    Except String ShardId :=
  shardIdForKey h c k.asBytes

/-- `Client::upsert` routes through `shard_for_key(&key.as_bytes())`. -/
def Client.upsertRoute (h : List Nat → Nat) (c : Client) (k : Key) :
    Except String ShardId :=
  shardIdForKey h c k.asBytes

/-- The per-key routing of `Client::batch_get` / `batch_set` / `batch_upsert`:
each entry is grouped under `shard_id_for_key(&key.as_bytes())`, the whole
batch failing on the first routing error. -/
def Client.batchRoute (h : List Nat → Nat) (c : Client) (ks : List Key) :
    Except String (List (ShardId × Key)) :=
  ks.mapM (fun k => (shardIdForKey h c k.asBytes).map (fun s => (s, k)))

/-! ## Upsert functions — `src/core/src/ampc/dht/upsert.rs` -/

/-- `Value` (`ampc/dht/value.rs`, not under `src/`).  Modelled from the spec:
a tagged variant over a fixed menu of payloads; only the `U64` payload is
ever inspected by the claims, so the remaining variants (F32, F64, KahanSum
and the HyperLogLog widths) are collapsed into one constructor that matters
only through not being `U64`. -/
inductive Value where
  | u64 (n : Nat)
  | nonU64

/-- Rust `old + new` on `u64` with overflow checks enabled (the default for
debug builds, under which the repository's tests run): `none` models the
overflow panic. -/
def u64AddChecked (old new : Nat) : Option Nat :=
  if old + new < U64MOD then some (old + new) else none

/-- Rust `old + new` on `u64` in release builds: wraps modulo `2 ^ 64`. -/
def u64AddWrap (old new : Nat) : Nat := (old + new) % U64MOD

/-- `impl UpsertFn for U64Add`: `unwrap_value!` both operands as `U64`
(panicking on any other variant), then `Value::U64(old + new)` — a plain `+`,
not `saturating_add` or `wrapping_add`.  `none` models a panic: a non-`U64`
operand, or overflow under overflow checks. -/
def U64Add.upsert : Value → Value → Option Value
  | .u64 old, .u64 new => (u64AddChecked old new).map .u64
  | _, _ => none

/-! ## Sonic service connections and the connection pool —
`src/core/src/distributed/sonic/service.rs`,
`src/core/src/distributed/sonic/connection_pool.rs` -/

/-- The observable state of a `sonic::service::Connection` (and likewise of a
raw `sonic::Connection`): the `await_res` flag and whether the peer closed
the underlying connection (`is_closed`). -/
structure SonicConn where
  awaitRes : Bool
  closed : Bool

/-- `Connection::create`: a fresh connection, `await_res: false`. -/
def SonicConn.create : SonicConn := { awaitRes := false, closed := false }

/-- `Connection::send` (and `send_without_timeout`, `send_with_timeout`,
`batch_send_with_timeout`): `await_res` is set before the inner send and
cleared only after the matching response arrived; on failure the function
returns early through `?` with `await_res` still set.  `ok` is whether the
inner send/receive succeeded; the second component is whether a response was
produced. -/
def SonicConn.send (c : SonicConn) (ok : Bool) : SonicConn × Bool :=
  let c := { c with awaitRes := true }
  if ok then ({ c with awaitRes := false }, true) else (c, false)

/-- `Manager::recycle` / `ServiceManager::recycle`: reject a connection that
is awaiting a response, then a closed one; otherwise recycle it. -/
def recycle (c : SonicConn) : Except String Unit :=
  if c.awaitRes then .error "Connection is awaiting response"
  else if c.closed then .error "Connection is closed"
  else .ok ()

/-- Pool checkout (deadpool `Pool::get` with this manager): walk the idle
queue, hand out the first connection whose `recycle` succeeds, discard the
ones that fail, and open a fresh connection when the queue is exhausted. -/
def checkout : List SonicConn → SonicConn
  | [] => SonicConn.create
  | c :: rest =>
    match recycle c with
    | .ok _ => c
    | .error _ => checkout rest

/-! ## DHT administrative fan-out — `Client::drop_table`,
`Client::create_table`, `Client::clone_table`
(`src/core/src/ampc/dht/client.rs`) -/

/-- One shard's replicas for an administrative fan-out: each node's address
paired with the outcome that node's RPC returns. -/
abbrev NodeOutcomes := List (SocketAddr × Except String Unit)

/-- Whether a node outcome is a success. -/
def outcomeOk : Except String Unit → Bool
  | .ok _ => true
  | .error _ => false

/-- The inner `for node in &shard.nodes { node.api.drop_table(..).await? }`
loop: stop at the first failing node.  The second component records the
addresses on which the RPC was actually attempted. -/
def runNodes : NodeOutcomes → Except String Unit × List SocketAddr
  | [] => (.ok (), [])
  | (a, .ok _) :: rest =>
    let r := runNodes rest
    (r.1, a :: r.2)
  | (a, .error e) :: _ => (.error e, [a])

/-- `Client::drop_table`: iterate every replica of every shard sequentially,
propagating the first error with `?`.  The second component lists the
attempted addresses. -/
def dropTableRun : List NodeOutcomes → Except String Unit × List SocketAddr
  | [] => (.ok (), [])
  | shard :: rest =>
    match runNodes shard with
    | (.ok _, as) =>
      let r := dropTableRun rest
      (r.1, as ++ r.2)
    | (.error e, as) => (.error e, as)

/-- `Client::create_table`: the identical loop over every replica. -/
def createTableRun (shards : List NodeOutcomes) :
    Except String Unit × List SocketAddr :=
  dropTableRun shards

/-- `Client::clone_table`: the identical loop over every replica. -/
def cloneTableRun (shards : List NodeOutcomes) :
    Except String Unit × List SocketAddr :=
  dropTableRun shards

/-- Ground truth: the addresses of all replicas on which the operation would
fail. -/
def failedAddrs (shards : List NodeOutcomes) : List SocketAddr :=
  (shards.flatten.filter (fun p => !outcomeOk p.2)).map Prod.fst

/-! ## Webgraph canonicalization — `src/core/src/entrypoint/webgraph.rs` -/

/-- URLs are only looked up and substituted here; modelled as strings. -/
abbrev Url := String

/-- Modelled from the spec: `CanonicalIndex` (not under `src/`) is a
read-only map from URL to canonical URL consumed through
`get(url) → canonical_url?` (the `Result` wrapper is `unwrap`ped at the call
site and never fails in this model). -/
abbrev CanonicalIndex := Url → Option Url

/-- `canonical_or_self`: `if let Some(url) = index.get(&url).unwrap()` — the
pattern binds a fresh `url` that shadows the parameter — `{ url } else
{ url }`: the canonical URL when the index has an entry, the input URL
otherwise. -/
def canonicalOrSelf (index : CanonicalIndex) (url : Url) : Url :=
  match index url with
  | some url2 => url2
  | none => url

/-- An anchor link as handled by `WebgraphWorker::process_job`. -/
structure Link where
  source : Url
  destination : Url
  text : List Char
  rel : Nat

/-- The per-link rewriting of `WebgraphWorker::process_job` before insertion:
when a canonical index is configured both endpoints are canonicalized, and
the anchor text is truncated to 128 characters. -/
def processLink (index : Option CanonicalIndex) (link : Link) : Link :=
  let source := match index with
    | some index => canonicalOrSelf index link.source
    | none => link.source
  let destination := match index with
    | some index => canonicalOrSelf index link.destination
    | none => link.destination
  { link with
      source := source
      destination := destination
      text := link.text.take 128 }

/-! ## Streaming-response adapter —
`src/core/src/distributed/streaming_response.rs` -/

/-- One upstream `next_batch` call against the modelled source: the source
answers the listed results in order; once exhausted it keeps answering
`Ok(vec![])` (a finished upstream). -/
def nextBatch (src : List (Except String (List T))) :
    Except String (List T) × List (Except String (List T)) :=
  match src with
  | [] => (.ok [], [])
  | r :: rest => (r, rest)

/-- The state of a `StreamingResponseStream`: the upstream source and the
buffered batch. -/
structure StreamState (T : Type) where
  src : List (Except String (List T))
  batch : Option (List T)

/-- `Vec::pop` on the buffered batch: remove and return the last element. -/
def popBatch (s : StreamState T) : Option T × StreamState T :=
  match s.batch with
  | some b => (b.getLast?, { s with batch := some b.dropLast })
  | none => (none, s)

/-- The `match this.batch.as_mut()` arm of `poll_next`: on an empty buffer
pull the next batch — an error or an empty batch ends the stream — extending
the buffer on success; then `batch.pop()`. -/
def pollPop (s : StreamState T) : Option T × StreamState T :=
  match s.batch with
  | none => (none, s)
  | some b =>
    if b.isEmpty then
      match nextBatch s.src with
      | (.error _, src') => (none, { src := src', batch := some b })
      | (.ok nb, src') =>
        if nb.isEmpty then (none, { src := src', batch := some b })
        else popBatch { src := src', batch := some (b ++ nb) }
    else popBatch s

/-- `poll_next` with a `Ready` upstream: when no batch is buffered pull one —
an error or an empty first batch ends the stream — then run the buffer arm.
`Poll::Pending` only re-runs the same logic later and is not modelled. -/
def pollNext (s : StreamState T) : Option T × StreamState T :=
  match s.batch with
  | none =>
    match nextBatch s.src with
    | (.error _, src') => (none, { src := src', batch := none })
    | (.ok b, src') =>
      if b.isEmpty then (none, { src := src', batch := none })
      else pollPop { src := src', batch := some b }
  | some _ => pollPop s

/-- Drive the stream the way a `StreamExt` consumer does: poll until the
first `Ready(None)`, collecting the items. -/
def streamTake (fuel : Nat) (s : StreamState T) : List T :=
  match fuel with
  | 0 => []
  | fuel + 1 =>
    match pollNext s with
    | (none, _) => []
    | (some x, s') => x :: streamTake fuel s'

/-- The number of items one upstream answer can contribute. -/
def batchSize : Except String (List T) → Nat
  | .ok b => b.length
  | .error _ => 0

/-- An upper bound on how many items the source can ever yield. -/
def sourceFuel (src : List (Except String (List T))) : Nat :=
  (src.map batchSize).sum + 1

/-- The full item sequence of `StreamingResponse::stream` over the modelled
source. -/
def streamItems (src : List (Except String (List T))) : List T :=
  streamTake (sourceFuel src) { src := src, batch := none }

/-! ## WARC writer and reader — `src/core/src/warc.rs`

The writer gzips its output and the reader multi-gzip-decodes it;
`MultiGzDecoder ∘ GzEncoder` is the identity on the byte stream (a property
of the external `flate2` crate), so the model works on the framed bytes
directly.  Bytes are `Nat`; Rust `String`s are modelled by their UTF-8 byte
lists, on which every operation used here (length, concatenation, search,
comparison) acts byte-wise. -/

/-- The UTF-8 bytes of an ASCII string literal (for ASCII, `Char.toNat` is
the byte value). -/
def ascii (s : String) : List Nat := s.data.map Char.toNat

/-- `"\r\n"`. -/
def CRLF : List Nat := [13, 10]

/-- `str::starts_with`, structurally recursive on the pattern so that it
reduces even when the searched text is abstract. -/
def bytesPrefix : List Nat → List Nat → Bool
  | [], _ => true
  | a :: as, l =>
    match l with
    | [] => false
    | b :: bs => a == b && bytesPrefix as bs

/-- `WarcRecord.request`: the `WARC-Target-URI`. -/
structure WRequest where
  url : List Nat
deriving DecidableEq

/-- `PayloadType`. -/
inductive WPayloadType where
  | html
  | pdf
  | rss
  | atom
deriving DecidableEq

/-- `impl Display for PayloadType`. -/
def payloadTypeStr : WPayloadType → List Nat
  | .html => ascii "text/html"
  | .pdf => ascii "application/pdf"
  | .rss => ascii "application/rss"
  | .atom => ascii "application/atom"

/-- `impl FromStr for PayloadType`; `none` is the parse error. -/
def parsePayloadType (s : List Nat) : Option WPayloadType :=
  if s = ascii "application/html" then some .html
  else if s = ascii "text/html" then some .html
  else if s = ascii "application/pdf" then some .pdf
  else if s = ascii "application/rss" then some .rss
  else if s = ascii "application/rss+xml" then some .rss
  else if s = ascii "application/atom" then some .atom
  else if s = ascii "application/atom+xml" then some .atom
  else none

/-- `WarcRecord.response`: body string and optional identified payload
type. -/
structure WResponse where
  body : List Nat
  payloadType : Option WPayloadType
deriving DecidableEq

/-- `WarcRecord.metadata`: `fetchTimeMs`. -/
structure WMetadata where
  fetchTimeMs : Nat
deriving DecidableEq

/-- A WARC record as produced and consumed by the pipeline. -/
structure WarcRecord where
  request : WRequest
  response : WResponse
  metadata : WMetadata
deriving DecidableEq

/-- The ASCII decimal digits of `n`, most significant first (`format!`'s
rendering of an unsigned integer).  The first argument is structural fuel;
`n` itself is always enough since `n` has at most `n` digits. -/
def decAux : Nat → Nat → List Nat
  | 0, _ => []
  | fuel + 1, n => if n = 0 then [] else decAux fuel (n / 10) ++ [48 + n % 10]

/-- `format!("{n}")` for an unsigned integer. -/
def decBytes (n : Nat) : List Nat :=
  if n = 0 then [48] else decAux n n

/-- `str::parse` of an unsigned integer: digits only, non-empty.  (Overflow
of the concrete `u64`/`usize` type cannot occur on values rendered from
in-range integers, which is the only way this parser is exercised here, and
is therefore not modelled.) -/
def parseDecAux : List Nat → Nat → Option Nat
  | [], acc => some acc
  | d :: t, acc =>
    if 48 ≤ d ∧ d ≤ 57 then parseDecAux t (acc * 10 + (d - 48)) else none

/-- `str::parse` of an unsigned integer. -/
def parseDec (s : List Nat) : Option Nat :=
  if s = [] then none else parseDecAux s 0

/-- One header line as serialized by `WarcWriter::write`:
`"{key}: {value}\r\n"` (`58` is `':'`, `32` is `' '`). -/
def headerLine (key v : List Nat) : List Nat :=
  key ++ 58 :: 32 :: v ++ CRLF

/-- The bytes `WarcWriter::write` produces for the `request` record:
`"WARC/1.0\r\n"`, `"WARC-Type: request\r\n"`,
`"WARC-Target-URI: {url}\r\n"`, `"Content-Length: 0\r\n"`, `"\r\n"`,
`"\r\n\r\n"`. -/
def requestBytes (url : List Nat) : List Nat :=
  ascii "WARC/1.0\r\n"
  ++ headerLine (ascii "WARC-Type") (ascii "request")
  ++ headerLine (ascii "WARC-Target-URI") url
  ++ headerLine (ascii "Content-Length") (decBytes 0)
  ++ CRLF
  ++ ascii "\r\n\r\n"

/-- The bytes `WarcWriter::write` produces for the `response` record: the
version line, the type line, the optional
`"WARC-Identified-Payload-Type: {payload_type}\r\n"`, a content length of
`body.len() + 4` (the `"\r\n\r\n"` separating the absent http header from
the body counts as content), the blank line, the separator, the body and
the record ending. -/
def responseBytes (body : List Nat) (pt : Option WPayloadType) : List Nat :=
  ascii "WARC/1.0\r\n"
  ++ headerLine (ascii "WARC-Type") (ascii "response")
  ++ (match pt with
      | some p => headerLine (ascii "WARC-Identified-Payload-Type") (payloadTypeStr p)
      | none => [])
  ++ headerLine (ascii "Content-Length") (decBytes (body.length + 4))
  ++ CRLF
  ++ ascii "\r\n\r\n"
  ++ body
  ++ ascii "\r\n\r\n"

/-- The content of the `metadata` record: `"fetchTimeMs: {t}"`. -/
def metaContent (t : Nat) : List Nat :=
  ascii "fetchTimeMs: " ++ decBytes t

/-- The bytes `WarcWriter::write` produces for the `metadata` record. -/
def metadataBytes (t : Nat) : List Nat :=
  ascii "WARC/1.0\r\n"
  ++ headerLine (ascii "WARC-Type") (ascii "metadata")
  ++ headerLine (ascii "Content-Length") (decBytes (metaContent t).length)
  ++ CRLF
  ++ metaContent t
  ++ ascii "\r\n\r\n"

/-- `WarcWriter::write`: one request, one response, one metadata record. -/
def writeRecordBytes (r : WarcRecord) : List Nat :=
  requestBytes r.request.url
  ++ responseBytes r.response.body r.response.payloadType
  ++ metadataBytes r.metadata.fetchTimeMs

/-- `WarcWriter::new`: the `warcinfo` preamble, whose content embeds the
current date (an arbitrary byte list here). -/
def warcinfoBytes (date : List Nat) : List Nat :=
  let content := ascii "ISPARTOF: crawl[" ++ date ++ ascii "]"
  ascii "WARC/1.0\r\n"
  ++ headerLine (ascii "WARC-Type") (ascii "warcinfo")
  ++ headerLine (ascii "Content-Length") (decBytes content.length)
  ++ CRLF
  ++ content
  ++ ascii "\r\n\r\n"

/-- A `WarcWriter` session: `new`, `write` for every record, `finish`. -/
def writeWarc (date : List Nat) (rs : List WarcRecord) : List Nat :=
  warcinfoBytes date ++ (rs.map writeRecordBytes).flatten

/-- `BufRead::read_line`: bytes up to and including the first `'\n'`, or
everything up to EOF.  (The writer only ever emits valid UTF-8, so the
UTF-8 validity check of the Rust method never fails on the streams read
here and is not modelled.) -/
def readLine : List Nat → List Nat × List Nat
  | [] => ([], [])
  | b :: t =>
    if b = 10 then ([10], t)
    else
      let p := readLine t
      (b :: p.1, p.2)

/-- ASCII byte uppercasing; `str::to_uppercase` agrees with this byte map on
the ASCII header keys and version lines the writer emits. -/
def toUpperByte (b : Nat) : Nat :=
  if 97 ≤ b ∧ b ≤ 122 then b - 32 else b

/-- `to_uppercase` on a header key / version line. -/
def toUpper (l : List Nat) : List Nat := l.map toUpperByte

/-- An ASCII whitespace byte (space, tab, line feed, carriage return) —
the characters `char::is_whitespace` can meet in the writer's output. -/
def isWsByte (b : Nat) : Bool :=
  b == 32 || b == 9 || b == 10 || b == 13

/-- `rtrim`: `s.truncate(s.trim_end().len())`. -/
def rtrimWs (l : List Nat) : List Nat :=
  (l.reverse.dropWhile isWsByte).reverse

/-- `str::trim` (both ends). -/
def trimWs (l : List Nat) : List Nat :=
  (l.dropWhile isWsByte).reverse.dropWhile isWsByte |>.reverse

/-- `value.strip_suffix("\r\n")`, else `strip_suffix('\n')`, else
unchanged. -/
def stripLineEnd (v : List Nat) : List Nat :=
  if [13, 10].isSuffixOf v then v.dropLast.dropLast
  else if [10].isSuffixOf v then v.dropLast
  else v

/-- `value.strip_prefix(' ')` with fall-through. -/
def dropOneSpace : List Nat → List Nat
  | 32 :: t => t
  | l => l

/-- `BTreeMap<String, String>::insert`: replace the binding when the key
exists, append it otherwise (binding order is irrelevant to `get`). -/
def assocPut : List (List Nat × List Nat) → List Nat → List Nat →
    List (List Nat × List Nat)
  | [], k, v => [(k, v)]
  | (k', v') :: t, k, v =>
    if k = k' then (k, v) :: t else (k', v') :: assocPut t k v

/-- `BTreeMap::get`. -/
def assocGet (m : List (List Nat × List Nat)) (k : List Nat) :
    Option (List Nat) :=
  (m.find? (fun p => p.1 == k)).map Prod.snd

/-- A parse failure of the on-disk contract (`Error::WarcParse`) or an I/O
error surfaced by the reader. -/
inductive WarcErr where
  | parse (msg : String)
  | io
deriving DecidableEq

/-- The raw record of `RecordIterator::next_raw`: header map (keys
uppercased) and content bytes. -/
structure RawWarcRecord where
  header : List (List Nat × List Nat)
  content : List Nat
deriving DecidableEq

/-- The header loop of `next_raw`: read lines until `"\r\n"` or EOF; a line
without a colon is a parse error; otherwise the key (uppercased, colon
dropped) maps to the value (line ending stripped, one leading space
stripped).  Returns the reader's position alongside the outcome.  The fuel
is structural; one unit per line, so any fuel above the byte count is
enough. -/
def parseHeaders : Nat → List Nat → List (List Nat × List Nat) →
    Except WarcErr (List (List Nat × List Nat)) × List Nat
  | 0, l, _ => (.error .io, l)
  | fuel + 1, l, m =>
    let line := (readLine l).1
    let rest := (readLine l).2
    if line = [13, 10] ∨ line = [] then (.ok m, rest)
    else
      match line.findIdx? (fun b => b == 58) with
      | none => (.error (.parse "All header lines must contain a colon"), rest)
      | some i =>
        let v := dropOneSpace (stripLineEnd (line.drop (i + 1)))
        let key := (line.take (i + 1)).dropLast
        parseHeaders fuel rest (assocPut m (toUpper key) v)

/-- `RecordIterator::next_raw`.  `none` is iterator end (empty version
line); an error carries the reader's position so that iteration can
continue. -/
def nextRaw (fuel : Nat) (l : List Nat) :
    Option (Except WarcErr RawWarcRecord × List Nat) :=
  let version := (readLine l).1
  let r1 := (readLine l).2
  if version = [] then none
  else if ¬ bytesPrefix (ascii "WARC/1.") (toUpper (rtrimWs version)) then
    some (.error (.parse "Unknown WARC version"), r1)
  else
    match parseHeaders fuel r1 [] with
    | (.error e, r2) => some (.error e, r2)
    | (.ok hdr, r2) =>
      match assocGet hdr (ascii "CONTENT-LENGTH") with
      | none => some (.error (.parse "Record has no content-length"), r2)
      | some cl =>
        match parseDec cl with
        | none => some (.error (.parse "Could not parse content length"), r2)
        | some n =>
          if r2.length < n then some (.error .io, [])
          else
            let content := r2.take n
            let r3 := r2.drop n
            if r3.length < 4 then some (.error .io, [])
            else if r3.take 4 = [13, 10, 13, 10] then
              some (.ok { header := hdr, content := content }, r3.drop 4)
            else some (.error (.parse "Invalid record ending"), r3.drop 4)

/-- `Request::from_raw`. -/
def requestFromRaw (raw : RawWarcRecord) : Except WarcErr WRequest :=
  match assocGet raw.header (ascii "WARC-TARGET-URI") with
  | none => .error (.parse "No target url")
  | some u => .ok ⟨u⟩

/-- `content.split_once("\r\n\r\n")`: split at the first occurrence. -/
def splitOnce4 : List Nat → Option (List Nat × List Nat)
  | [] => none
  | b :: t =>
    if bytesPrefix [13, 10, 13, 10] (b :: t) then some ([], t.drop 3)
    else (splitOnce4 t).map (fun p => (b :: p.1, p.2))

/-- `Response::from_raw`.  `decode_string` is the identity on the byte
level: the writer emits the UTF-8 bytes of Rust `String`s, on which
`String::from_utf8` succeeds and returns the same bytes. -/
def responseFromRaw (raw : RawWarcRecord) : Except WarcErr WResponse :=
  match splitOnce4 raw.content with
  | none => .error (.parse "Invalid http body")
  | some (_, body) =>
    .ok ⟨body, (assocGet raw.header (ascii "WARC-IDENTIFIED-PAYLOAD-TYPE")).bind
        parsePayloadType⟩

/-- The line loop of `Metadata::from_raw`: find a `fetchTimeMs:` line and
parse its trimmed value; lines without a colon or with another key are
skipped; exhausted content is a parse error. -/
def metaLines : Nat → List Nat → Except WarcErr WMetadata
  | 0, _ => .error .io
  | fuel + 1, l =>
    if l = [] then .error (.parse "Failed to parse metadata")
    else
      let line := stripLineEnd (readLine l).1
      let rest := (readLine l).2
      match line.findIdx? (fun b => b == 58) with
      | none => metaLines fuel rest
      | some i =>
        let value := trimWs (line.drop (i + 1))
        let key := (line.take (i + 1)).dropLast
        if key = ascii "fetchTimeMs" then
          match parseDec value with
          | some t => .ok ⟨t⟩
          | none => .error (.parse "invalid digit")
        else metaLines fuel rest

/-- `Metadata::from_raw`. -/
def metadataFromRaw (raw : RawWarcRecord) : Except WarcErr WMetadata :=
  metaLines (raw.content.length + 1) raw.content

instance {ε α : Type} [DecidableEq ε] [DecidableEq α] :
    DecidableEq (Except ε α)
  | .error e1, .error e2 =>
    if h : e1 = e2 then isTrue (by rw [h]) else isFalse (by simp [h])
  | .error _, .ok _ => isFalse (by simp)
  | .ok _, .error _ => isFalse (by simp)
  | .ok a, .ok b =>
    if h : a = b then isTrue (by rw [h]) else isFalse (by simp [h])

/-- The body of `RecordIterator::next` after the `warcinfo` skip: pull raw
records, dispatch on `WARC-TYPE` (skipping responses/metadata whose
`CONTENT-TYPE` does not match, erroring on duplicates), and stop as soon as
request, response and metadata are all present.  `none` is iterator end
with a partial triple dropped. -/
def nextTriple : Nat → List Nat → Option WRequest → Option WResponse →
    Option WMetadata → Option (Except WarcErr WarcRecord × List Nat)
  | 0, _, _, _, _ => none
  | fuel + 1, l, req, res, met =>
    match nextRaw (fuel + 1) l with
    | none =>
      match req, res, met with
      | some rq, some rs, some mt => some (.ok ⟨rq, rs, mt⟩, l)
      | _, _, _ => none
    | some (.error e, rest) => some (.error e, rest)
    | some (.ok raw, rest) =>
      match assocGet raw.header (ascii "WARC-TYPE") with
      | none => nextTriple fuel rest req res met
      | some wt =>
        if wt = ascii "request" then
          if req.isSome then
            some (.error (.parse "Already have a request but got another."), rest)
          else
            match requestFromRaw raw with
            | .error e => some (.error e, rest)
            | .ok rq =>
              match res, met with
              | some rs, some mt => some (.ok ⟨rq, rs, mt⟩, rest)
              | _, _ => nextTriple fuel rest (some rq) res met
        else if wt = ascii "response" ∨ wt = ascii "revisit" then
          if (match assocGet raw.header (ascii "CONTENT-TYPE") with
              | some ct => !bytesPrefix (ascii "application/http") ct
              | none => false) then
            nextTriple fuel rest req res met
          else if res.isSome then
            some (.error (.parse "Already have a response but got another."), rest)
          else
            match responseFromRaw raw with
            | .error e => some (.error e, rest)
            | .ok rs =>
              match req, met with
              | some rq, some mt => some (.ok ⟨rq, rs, mt⟩, rest)
              | _, _ => nextTriple fuel rest req (some rs) met
        else if wt = ascii "metadata" then
          if (match assocGet raw.header (ascii "CONTENT-TYPE") with
              | some ct => !bytesPrefix (ascii "application/warc-fields") ct
              | none => false) then
            nextTriple fuel rest req res met
          else if met.isSome then
            some (.error (.parse "Already have metadata but got another."), rest)
          else
            match metadataFromRaw raw with
            | .error e => some (.error e, rest)
            | .ok mt =>
              match req, res with
              | some rq, some rs => some (.ok ⟨rq, rs, mt⟩, rest)
              | _, _ => nextTriple fuel rest req res (some mt)
        else nextTriple fuel rest req res met

/-- Collect the iterator's items.  Every `nextTriple` step consumes at
least one byte, so byte-count fuel is always sufficient. -/
def recordsAux : Nat → List Nat → List (Except WarcErr WarcRecord)
  | 0, _ => []
  | fuel + 1, l =>
    match nextTriple fuel l none none none with
    | none => []
    | some (r, rest) => r :: recordsAux fuel rest

/-- `WarcFile::records().collect()`: on the first call the `warcinfo`
record is skipped — `next_raw()?.ok()?` ends the iteration if it is absent
or malformed — then triples are read until the stream ends. -/
def records (l : List Nat) : List (Except WarcErr WarcRecord) :=
  match nextRaw (l.length + 1) l with
  | none => []
  | some (.error _, _) => []
  | some (.ok _, rest) => recordsAux (rest.length + 1) rest

/-! ## Theorems -/

/-- The rehash fold of `grow` never panics and preserves the bin count, as
long as it starts from a non-zero number of bins. -/
theorem grow_fold_length {V : Type} (entries : List (Nat × V)) :
    ∀ (bins : List (List (Nat × V))), bins.length ≠ 0 →
      ∃ bins',
        (entries.foldlM
            (fun (bins : List (List (Nat × V))) (kv : Nat × V) =>
              match modulusUsize (wrappingMul kv.1 BIG_PRIME) bins.length with
              | none => none
              | some bi => some (bins.set bi (bins.getD bi [] ++ [kv])))
            bins) = some bins'
        ∧ bins'.length = bins.length := by
  induction entries with
  | nil => intro bins h; exact ⟨bins, rfl, rfl⟩
  | cons kv rest ih =>
    intro bins h
    have hstep : modulusUsize (wrappingMul kv.1 BIG_PRIME) bins.length =
        some (wrappingMul kv.1 BIG_PRIME % bins.length) := by
      simp [modulusUsize, h]
    have hlen : (bins.set (wrappingMul kv.1 BIG_PRIME % bins.length)
        (bins.getD (wrappingMul kv.1 BIG_PRIME % bins.length) [] ++ [kv])).length =
        bins.length := by
      simp
    obtain ⟨bins', h1, h2⟩ := ih
      (bins.set (wrappingMul kv.1 BIG_PRIME % bins.length)
        (bins.getD (wrappingMul kv.1 BIG_PRIME % bins.length) [] ++ [kv]))
      (by simpa [hlen] using h)
    refine ⟨bins', ?_, ?_⟩
    · simpa [List.foldlM, hstep] using h1
    · simpa [hlen] using h2

/-- `grow` on a map with at least one bin succeeds and yields
`⌊1.5 · bins⌋` bins. -/
theorem grow_length {V : Type} (m : IntMap V) (h : 0 < m.bins.length) :
    ∃ m', m.grow = some m' ∧ m'.bins.length = growThreshold m.bins.length := by
  have hth : growThreshold m.bins.length ≠ 0 := by
    unfold growThreshold; omega
  obtain ⟨bins', h1, h2⟩ :=
    grow_fold_length (V := V) m.bins.flatten
      (List.replicate (growThreshold m.bins.length) []) (by simpa using hth)
  refine ⟨{ bins := bins'.map sortBin, len := m.len }, ?_, ?_⟩
  · unfold IntMap.grow
    dsimp only
    rw [h1]
    rfl
  · simpa using h2

/-- The insertion body never panics on a non-empty bin vector and preserves
the bin count. -/
theorem insertCore_length {V : Type} (m : IntMap V) (k : Nat) (v : V)
    (h : m.bins.length ≠ 0) :
    ∃ m', m.insertCore k v = some m' ∧ m'.bins.length = m.bins.length := by
  have hbin : m.binIdx k = some (wrappingMul k BIG_PRIME % m.bins.length) := by
    unfold IntMap.binIdx modulusUsize
    rw [if_neg h]
  rcases hfi : (m.bins.getD (wrappingMul k BIG_PRIME % m.bins.length) []).findIdx?
      (fun p => decide (p.1 = k)) with _ | idx
  · have hEq : m.insertCore k v = some
        { bins := m.bins.set (wrappingMul k BIG_PRIME % m.bins.length)
            (sortBin (m.bins.getD (wrappingMul k BIG_PRIME % m.bins.length) [] ++ [(k, v)])),
          len := m.len + 1 } := by
      unfold IntMap.insertCore
      rw [hbin]
      dsimp only
      rw [hfi]
    exact ⟨_, hEq, by simp⟩
  · have hEq : m.insertCore k v = some
        { bins := m.bins.set (wrappingMul k BIG_PRIME % m.bins.length)
            ((m.bins.getD (wrappingMul k BIG_PRIME % m.bins.length) []).set idx (k, v)),
          len := m.len } := by
      unfold IntMap.insertCore
      rw [hbin]
      dsimp only
      rw [hfi]
    exact ⟨_, hEq, by simp⟩

/-- `insert` on a map with at least one bin succeeds, and the bin count after
the call is `⌊1.5 · bins⌋` exactly when `len ≥ ⌊1.5 · bins⌋` held before, the
old bin count otherwise. -/
theorem insert_length {V : Type} (m : IntMap V) (k : Nat) (v : V)
    (h : 0 < m.bins.length) :
    ∃ m', m.insert k v = some m'
      ∧ m'.bins.length = (if growThreshold m.bins.length ≤ m.len
          then growThreshold m.bins.length else m.bins.length) := by
  by_cases hg : growThreshold m.bins.length ≤ m.len
  · obtain ⟨mg, hmg, hlen⟩ := grow_length m h
    have hne : mg.bins.length ≠ 0 := by
      rw [hlen]; unfold growThreshold; omega
    obtain ⟨m', hm', hlen'⟩ := insertCore_length mg k v hne
    refine ⟨m', ?_, ?_⟩
    · unfold IntMap.insert
      rw [if_pos hg, hmg, Option.some_bind, hm']
    · rw [if_pos hg, hlen', hlen]
  · obtain ⟨m', hm', hlen'⟩ := insertCore_length m k v (by omega)
    refine ⟨m', ?_, ?_⟩
    · unfold IntMap.insert
      rw [if_neg hg, Option.some_bind, hm']
    · rw [if_neg hg, hlen']

/-- C7 (counterexample): the claim computes the bin index with the constant
`0x9E37_79B9_7F4A_7C15 = 11400714819323198485`, but the source's `BIG_PRIME`
is `11400714819323198549 = 0x9E37_79B9_7F4A_7C55`.  For key `1` and `3` bins
the code picks bin `2` while the claimed formula picks bin `1`.  Moreover the
claimed growth rule `len ≥ 1.5 · |bins|` (real-number reading) says a map
with `3` bins must not grow before `len = 5`, but inserting a fifth key at
`len = 4` already grows the table (to `⌊4.5⌋ = 4` bins, not `1.5 × 3`). -/
theorem intmap_c7_counterexample :
    (IntMap.withCapacity Nat 3).binIdx 1 = some 2
    ∧ 1 * 0x9E3779B97F4A7C15 % 2 ^ 64 % 3 = 1
    ∧ (2 : Nat) ≠ 1
    ∧ (IntMap.fromIter Nat (some 3)
        [(0, 0), (1, 0), (2, 0), (3, 0), (4, 0)]).map (fun m => m.bins.length)
        = some 4
    ∧ (4 : Nat) ≠ 3 := by
  refine ⟨by decide, by decide, by decide, by decide, by decide⟩

/-- C7 (amended): for every `IntMap` with a non-empty bin vector, the bin
index used by `insert`, `get` and `contains_key` is
`(key · 11400714819323198549 mod 2⁶⁴) mod |bins|`; `get`/`contains_key` read
exactly that bin, and `insert` grows the bin vector to `⌊1.5 · |bins|⌋` bins
exactly when `len ≥ ⌊1.5 · |bins|⌋` held at the call. -/
theorem intmap_bin_index_and_growth (V : Type) (m : IntMap V) (k : Nat) (v : V)
    (hb : 0 < m.bins.length) :
    m.binIdx k = some (k * 11400714819323198549 % 2 ^ 64 % m.bins.length)
    ∧ m.get k = some (binSearch
        (m.bins.getD (k * 11400714819323198549 % 2 ^ 64 % m.bins.length) []) k)
    ∧ m.containsKey k = some (binSearch
        (m.bins.getD (k * 11400714819323198549 % 2 ^ 64 % m.bins.length) []) k).isSome
    ∧ ∃ m', m.insert k v = some m'
        ∧ m'.bins.length = (if growThreshold m.bins.length ≤ m.len
            then growThreshold m.bins.length else m.bins.length) := by
  have hbin : m.binIdx k = some (k * 11400714819323198549 % 2 ^ 64 % m.bins.length) := by
    unfold IntMap.binIdx modulusUsize wrappingMul BIG_PRIME U64MOD
    rw [if_neg (by omega)]
  refine ⟨hbin, ?_, ?_, insert_length m k v hb⟩
  · simp [IntMap.get, hbin]
  · simp [IntMap.containsKey, IntMap.get, hbin]

/-- Witness for `intmap_bin_index_and_growth` at a concrete map with two
bins and key `5`. -/
theorem intmap_bin_index_and_growth_witness :
    0 < (IntMap.withCapacity Nat 2).bins.length
    ∧ ((IntMap.withCapacity Nat 2).binIdx 5
        = some (5 * 11400714819323198549 % 2 ^ 64 % (IntMap.withCapacity Nat 2).bins.length)
    ∧ (IntMap.withCapacity Nat 2).get 5 = some (binSearch
        ((IntMap.withCapacity Nat 2).bins.getD
          (5 * 11400714819323198549 % 2 ^ 64 % (IntMap.withCapacity Nat 2).bins.length) []) 5)
    ∧ (IntMap.withCapacity Nat 2).containsKey 5 = some (binSearch
        ((IntMap.withCapacity Nat 2).bins.getD
          (5 * 11400714819323198549 % 2 ^ 64 % (IntMap.withCapacity Nat 2).bins.length) []) 5).isSome
    ∧ ∃ m', (IntMap.withCapacity Nat 2).insert 5 7 = some m'
        ∧ m'.bins.length = (if growThreshold (IntMap.withCapacity Nat 2).bins.length
            ≤ (IntMap.withCapacity Nat 2).len
            then growThreshold (IntMap.withCapacity Nat 2).bins.length
            else (IntMap.withCapacity Nat 2).bins.length)) :=
  ⟨by decide, intmap_bin_index_and_growth Nat (IntMap.withCapacity Nat 2) 5 7 (by decide)⟩

/-- C10: an `IntMap` built by `with_capacity(0)` — which `FromIterator`
produces whenever the iterator's size-hint upper bound is `0`, e.g. when
collecting from an empty vector — has zero bins, and every call to `get`,
`insert` or `contains_key` on it panics with a division by zero inside
`bin_idx` (modelled by `none`) instead of acting as an empty map. -/
theorem intmap_with_capacity_zero_panics (V : Type) (k : Nat) (v : V) :
    IntMap.fromIter V (some 0) [] = some (IntMap.withCapacity V 0)
    ∧ (IntMap.withCapacity V 0).bins.length = 0
    ∧ (IntMap.withCapacity V 0).get k = none
    ∧ (IntMap.withCapacity V 0).insert k v = none
    ∧ (IntMap.withCapacity V 0).containsKey k = none :=
  ⟨rfl, rfl, rfl,
    by simp [IntMap.insert, IntMap.grow, IntMap.insertCore, IntMap.withCapacity,
      IntMap.binIdx, modulusUsize, growThreshold], rfl⟩

/-- Every key of the map after `mapAddNode` is the inserted shard id or an
old key. -/
theorem mapAddNode_keys_subset :
    ∀ (m : List (ShardId × List SocketAddr)) (sid : ShardId) (a : SocketAddr)
      (x : ShardId), x ∈ (mapAddNode m sid a).map Prod.fst →
      x = sid ∨ x ∈ m.map Prod.fst := by
  intro m sid a
  induction m with
  | nil =>
    intro x hx
    simp [mapAddNode] at hx
    exact Or.inl hx
  | cons p rest ih =>
    intro x hx
    obtain ⟨k, ns⟩ := p
    by_cases h1 : sid < k
    · simp only [mapAddNode, if_pos h1, List.map_cons, List.mem_cons] at hx
      rcases hx with h | h | h
      · exact Or.inl h
      · exact Or.inr (by simp [h])
      · exact Or.inr (by simp [h])
    · by_cases h2 : sid = k
      · simp only [mapAddNode, if_neg h1, if_pos h2, List.map_cons, List.mem_cons] at hx
        rcases hx with h | h
        · exact Or.inr (by simp [h])
        · exact Or.inr (by simp [h])
      · simp only [mapAddNode, if_neg h1, if_neg h2, List.map_cons, List.mem_cons] at hx
        rcases hx with h | h
        · exact Or.inr (by simp [h])
        · rcases ih x h with h' | h'
          · exact Or.inl h'
          · exact Or.inr (by simp [h'])

/-- `mapAddNode` preserves the strict sortedness of the map keys. -/
theorem mapAddNode_keys_sorted :
    ∀ (m : List (ShardId × List SocketAddr)) (sid : ShardId) (a : SocketAddr),
      (m.map Prod.fst).Pairwise (· < ·) →
      ((mapAddNode m sid a).map Prod.fst).Pairwise (· < ·) := by
  intro m sid a
  induction m with
  | nil =>
    intro _
    simp [mapAddNode]
  | cons p rest ih =>
    intro hs
    obtain ⟨k, ns⟩ := p
    simp only [List.map_cons, List.pairwise_cons] at hs
    obtain ⟨hk, hrest⟩ := hs
    by_cases h1 : sid < k
    · simp only [mapAddNode, if_pos h1, List.map_cons, List.pairwise_cons]
      refine ⟨?_, ?_⟩
      · intro x hx
        simp only [List.mem_cons] at hx
        rcases hx with h | h
        · exact h ▸ h1
        · exact lt_trans h1 (hk x h)
      · exact ⟨hk, hrest⟩
    · by_cases h2 : sid = k
      · simp only [mapAddNode, if_neg h1, if_pos h2, List.map_cons, List.pairwise_cons]
        exact ⟨hk, hrest⟩
      · simp only [mapAddNode, if_neg h1, if_neg h2, List.map_cons, List.pairwise_cons]
        refine ⟨?_, ih hrest⟩
        intro x hx
        rcases mapAddNode_keys_subset rest sid a x hx with h | h
        · exact h ▸ Nat.lt_of_le_of_ne (Nat.le_of_not_lt h1) (fun he => h2 he.symm)
        · exact hk x h

/-- On a key-sorted map already holding the shard id, `mapAddNode` leaves the
key sequence unchanged (it only appends to the shard's replica vector). -/
theorem mapAddNode_keys_mem :
    ∀ (m : List (ShardId × List SocketAddr)) (sid : ShardId) (a : SocketAddr),
      (m.map Prod.fst).Pairwise (· < ·) → sid ∈ m.map Prod.fst →
      (mapAddNode m sid a).map Prod.fst = m.map Prod.fst := by
  intro m sid a
  induction m with
  | nil =>
    intro _ hm
    simp at hm
  | cons p rest ih =>
    intro hs hm
    obtain ⟨k, ns⟩ := p
    simp only [List.map_cons, List.pairwise_cons] at hs
    obtain ⟨hk, hrest⟩ := hs
    simp only [List.map_cons, List.mem_cons] at hm
    by_cases h1 : sid < k
    · exfalso
      rcases hm with h | h
      · exact absurd (h ▸ h1) (lt_irrefl k)
      · exact absurd h1 (Nat.lt_asymm (hk sid h))
    · by_cases h2 : sid = k
      · simp [mapAddNode, h1, h2]
      · have hmem : sid ∈ rest.map Prod.fst := by
          rcases hm with h | h
          · exact absurd h h2
          · exact h
        simp [mapAddNode, h1, h2, ih hrest hmem]

/-- `Client::new` produces a sorted `ShardId` vector (the `BTreeMap` keys). -/
theorem clientNew_ids_sorted (members : List (ShardId × SocketAddr)) :
    ((Client.new members).ids).Pairwise (· < ·) := by
  suffices h : ∀ (ms : List (ShardId × SocketAddr))
      (m0 : List (ShardId × List SocketAddr)),
      (m0.map Prod.fst).Pairwise (· < ·) →
      ((ms.foldl (fun m p => mapAddNode m p.1 p.2) m0).map Prod.fst).Pairwise
        (· < ·) by
    exact h members [] (by simp)
  intro ms
  induction ms with
  | nil =>
    intro m0 h
    simpa using h
  | cons p rest ih =>
    intro m0 h
    exact ih _ (mapAddNode_keys_sorted m0 p.1 p.2 h)

/-- With at least one shard, the whole batch routing succeeds and assigns
every key its `shard_id_for_key`. -/
theorem batchRoute_ok (h : List Nat → Nat) (c : Client) (hne : c.ids ≠ []) :
    ∀ ks : List Key, c.batchRoute h ks
      = .ok (ks.map (fun k => (c.ids.getD (h k.asBytes % c.ids.length) 0, k))) := by
  have hroute : ∀ k : Key, shardIdForKey h c k.asBytes
      = .ok (c.ids.getD (h k.asBytes % c.ids.length) 0) := by
    intro k
    unfold shardIdForKey
    rw [if_neg (by simpa [List.isEmpty_iff] using hne)]
  intro ks
  induction ks with
  | nil => rfl
  | cons k rest ih =>
    unfold Client.batchRoute at ih ⊢
    rw [List.mapM_cons, ih, hroute k]
    rfl

/-- C1: with a non-empty shard set, `get`/`set`/`upsert`/batch operations all
route a key to the shard at index `stable_hash64(canonical_bytes) mod |ids|`
of the sorted `ShardId` vector; the choice is a pure function of the key's
canonical bytes and the `ShardId` set, so adding replica nodes inside an
existing shard never changes the route; with an empty shard set routing
fails with "No shards"; and `Client::new` builds a sorted id vector that is
exactly the keys of the shard map. -/
theorem dht_shard_routing (h : List Nat → Nat) (c : Client) (k : Key)
    (hne : c.ids ≠ [])
    (hinv : c.ids = c.shards.map Prod.fst)
    (hsorted : c.ids.Pairwise (· < ·)) :
    (c.getRoute h k = .ok (c.ids.getD (h k.asBytes % c.ids.length) 0)
      ∧ c.setRoute h k = .ok (c.ids.getD (h k.asBytes % c.ids.length) 0)
      ∧ c.upsertRoute h k = .ok (c.ids.getD (h k.asBytes % c.ids.length) 0)
      ∧ (∀ ks : List Key, c.batchRoute h ks
          = .ok (ks.map (fun k₂ => (c.ids.getD (h k₂.asBytes % c.ids.length) 0, k₂)))))
    ∧ (∀ c₂ : Client, c₂.ids = c.ids → ∀ k₂ : Key, k₂.asBytes = k.asBytes →
        c₂.getRoute h k₂ = c.getRoute h k)
    ∧ (∀ (sid : ShardId) (addr : SocketAddr), sid ∈ c.ids →
        (c.addNode sid addr).ids = c.ids
        ∧ ∀ k₂ : Key, (c.addNode sid addr).getRoute h k₂ = c.getRoute h k₂)
    ∧ (∀ (c₀ : Client) (b : List Nat), c₀.ids = [] →
        shardIdForKey h c₀ b = .error "No shards")
    ∧ (∀ members : List (ShardId × SocketAddr),
        ((Client.new members).ids).Pairwise (· < ·)
        ∧ (Client.new members).ids = (Client.new members).shards.map Prod.fst) := by
  have hroute : ∀ key : List Nat, shardIdForKey h c key
      = .ok (c.ids.getD (h key % c.ids.length) 0) := by
    intro key
    unfold shardIdForKey
    rw [if_neg (by simpa [List.isEmpty_iff] using hne)]
  have hids : ∀ sid addr, sid ∈ c.ids → (c.addNode sid addr).ids = c.ids := by
    intro sid addr hsid
    show (mapAddNode c.shards sid addr).map Prod.fst = c.ids
    rw [mapAddNode_keys_mem c.shards sid addr (hinv ▸ hsorted) (hinv ▸ hsid), hinv]
  refine ⟨⟨hroute k.asBytes, hroute k.asBytes, hroute k.asBytes, batchRoute_ok h c hne⟩,
    ?_, ?_, ?_, ?_⟩
  · intro c₂ hc₂ k₂ hk₂
    unfold Client.getRoute shardIdForKey
    rw [hc₂, hk₂]
  · intro sid addr hsid
    refine ⟨hids sid addr hsid, ?_⟩
    intro k₂
    unfold Client.getRoute shardIdForKey
    rw [hids sid addr hsid]
  · intro c₀ b h₀
    unfold shardIdForKey
    rw [if_pos (by simp [List.isEmpty_iff, h₀])]
  · intro members
    exact ⟨clientNew_ids_sorted members, rfl⟩

/-- Witness for `dht_shard_routing` at a two-shard client (shards 3 and 1,
one replica each) and the key `U64 5`, with the hash instantiated to the
byte-list length. -/
theorem dht_shard_routing_witness :
    ((Client.new [(3, "a"), (1, "b")]).ids ≠ []
      ∧ (Client.new [(3, "a"), (1, "b")]).ids
          = (Client.new [(3, "a"), (1, "b")]).shards.map Prod.fst
      ∧ ((Client.new [(3, "a"), (1, "b")]).ids).Pairwise (· < ·))
    ∧ Client.getRoute (fun b => b.length) (Client.new [(3, "a"), (1, "b")])
        (.u64 5)
      = .ok ((Client.new [(3, "a"), (1, "b")]).ids.getD
          ((Key.asBytes (.u64 5)).length
            % (Client.new [(3, "a"), (1, "b")]).ids.length) 0) :=
  ⟨⟨by decide, rfl, by decide⟩,
    (dht_shard_routing (fun b => b.length) (Client.new [(3, "a"), (1, "b")])
      (.u64 5) (by decide) rfl (by decide)).1.1⟩

/-- C2 (counterexample): `U64Add` is a plain `+`.  At `old = 2⁶⁴ − 1`,
`new = 1` it panics under overflow checks (modelled by `none`), and in
release builds it wraps to `0`, which is neither the operands' sum `2⁶⁴`
nor the saturated value `2⁶⁴ − 1` — so the merge is not an overflow-safe
saturating/wrapping addition that "yields their sum without panicking". -/
theorem u64add_counterexample :
    U64Add.upsert (.u64 (2 ^ 64 - 1)) (.u64 1) = none
    ∧ u64AddWrap (2 ^ 64 - 1) 1 = 0
    ∧ ((2 ^ 64 - 1) + 1 : Nat) ≠ 0
    ∧ (2 ^ 64 - 1 : Nat) ≠ 0 := by
  refine ⟨?_, ?_, by norm_num, by norm_num⟩
  · show (u64AddChecked (2 ^ 64 - 1) 1).map Value.u64 = none
    norm_num [u64AddChecked, U64MOD]
  · norm_num [u64AddWrap, U64MOD]

/-- C2 (amended): `U64Add` merges two `u64` values with the plain `+`
operator: whenever the mathematical sum fits in `u64` the result is exactly
the sum (in both checked and release semantics); on overflow it is not
overflow-safe (panic under overflow checks, wrap in release). -/
theorem u64add_plain_sum (a b : Nat) (hab : a + b < 2 ^ 64) :
    U64Add.upsert (.u64 a) (.u64 b) = some (.u64 (a + b))
    ∧ u64AddWrap a b = a + b := by
  constructor
  · show (u64AddChecked a b).map Value.u64 = _
    unfold u64AddChecked U64MOD
    rw [if_pos hab]
    rfl
  · unfold u64AddWrap U64MOD
    exact Nat.mod_eq_of_lt hab

/-- Witness for `u64add_plain_sum` at `2 + 3`. -/
theorem u64add_plain_sum_witness :
    ((2 + 3 : Nat) < 2 ^ 64)
    ∧ (U64Add.upsert (.u64 2) (.u64 3) = some (.u64 (2 + 3))
        ∧ u64AddWrap 2 3 = 2 + 3) :=
  ⟨by norm_num, u64add_plain_sum 2 3 (by norm_num)⟩

/-- Whatever `checkout` hands out is neither awaiting a response nor
closed. -/
theorem checkout_flags (q : List SonicConn) :
    (checkout q).awaitRes = false ∧ (checkout q).closed = false := by
  induction q with
  | nil => exact ⟨rfl, rfl⟩
  | cons c rest ih =>
    rcases c with ⟨a, cl⟩
    cases a with
    | false =>
      cases cl with
      | false => exact ⟨rfl, rfl⟩
      | true => simpa [checkout, recycle] using ih
    | true =>
      cases cl <;> simpa [checkout, recycle] using ih

/-- C3: a pooled connection is recycled exactly when it is neither awaiting a
response nor closed; a `send` whose inner request fails returns with
`awaiting_response()` still true; such a connection is rejected by `recycle`;
and a checkout never hands out a connection with `awaiting_response()` true —
in particular never a connection returned to the pool in that state. -/
theorem pool_recycle_integrity (c : SonicConn) (q : List SonicConn) :
    (recycle c = .ok () ↔ (c.awaitRes = false ∧ c.closed = false))
    ∧ ((c.send false).1.awaitRes = true
        ∧ recycle (c.send false).1 = .error "Connection is awaiting response")
    ∧ ((checkout q).awaitRes = false ∧ (checkout q).closed = false)
    ∧ (c.awaitRes = true → checkout q ≠ c) := by
  refine ⟨?_, ⟨rfl, rfl⟩, checkout_flags q, ?_⟩
  · rcases c with ⟨a, cl⟩
    cases a <;> cases cl <;> simp [recycle]
  · intro ha he
    have hf := (checkout_flags q).1
    rw [he, ha] at hf
    exact absurd hf (by decide)

/-- Witness for `pool_recycle_integrity` at a connection whose send failed
and a queue holding an awaiting connection. -/
theorem pool_recycle_integrity_witness :
    (SonicConn.send { awaitRes := false, closed := false } false).1.awaitRes = true
    ∧ checkout [{ awaitRes := true, closed := false }]
        ≠ { awaitRes := true, closed := false } :=
  ⟨(pool_recycle_integrity { awaitRes := false, closed := false } []).2.1.1,
   (pool_recycle_integrity { awaitRes := true, closed := false }
      [{ awaitRes := true, closed := false }]).2.2.2 rfl⟩

/-- The sequential per-shard node loop returns the first failing node's
error, `Ok` when every node succeeds. -/
theorem runNodes_first_error (ns : NodeOutcomes) :
    (runNodes ns).1 = (match ns.find? (fun p => !outcomeOk p.2) with
      | none => Except.ok ()
      | some p => p.2) := by
  induction ns with
  | nil => rfl
  | cons p rest ih =>
    obtain ⟨a, r⟩ := p
    cases r with
    | ok u =>
      rw [List.find?_cons_of_neg _ (by simp [outcomeOk])]
      simpa [runNodes] using ih
    | error e =>
      rw [List.find?_cons_of_pos _ (by simp [outcomeOk])]
      rfl

/-- Unfolding `dropTableRun` over a healthy shard. -/
theorem dropTableRun_cons_ok (shard : NodeOutcomes) (rest : List NodeOutcomes)
    (u : Unit) (as : List SocketAddr) (h : runNodes shard = (.ok u, as)) :
    dropTableRun (shard :: rest)
      = ((dropTableRun rest).1, as ++ (dropTableRun rest).2) := by
  conv_lhs => unfold dropTableRun
  rw [h]

/-- Unfolding `dropTableRun` over a shard with a failing replica. -/
theorem dropTableRun_cons_error (shard : NodeOutcomes)
    (rest : List NodeOutcomes) (e : String) (as : List SocketAddr)
    (h : runNodes shard = (.error e, as)) :
    dropTableRun (shard :: rest) = (.error e, as) := by
  conv_lhs => unfold dropTableRun
  rw [h]

/-- The whole fan-out returns the first failing replica's error over the
flattened shard/node sequence. -/
theorem dropTable_first_error (shards : List NodeOutcomes) :
    (dropTableRun shards).1
      = (match shards.flatten.find? (fun p => !outcomeOk p.2) with
        | none => Except.ok ()
        | some p => p.2) := by
  induction shards with
  | nil => rfl
  | cons shard rest ih =>
    have hrn := runNodes_first_error shard
    rcases hsh : runNodes shard with ⟨r, attempted⟩
    rw [hsh] at hrn
    cases r with
    | ok u =>
      have hfind : shard.find? (fun p => !outcomeOk p.2) = none := by
        cases hf : shard.find? (fun p => !outcomeOk p.2) with
        | none => rfl
        | some p =>
          rw [hf] at hrn
          have hpred := List.find?_some hf
          have hp2 : (Except.ok u : Except String Unit) = p.2 := hrn
          rw [← hp2] at hpred
          simp [outcomeOk] at hpred
      rw [List.flatten_cons, List.find?_append, hfind, Option.none_or,
        dropTableRun_cons_ok shard rest u attempted hsh]
      exact ih
    | error e =>
      have hfind : ∃ p, shard.find? (fun p => !outcomeOk p.2) = some p
          ∧ p.2 = .error e := by
        cases hf : shard.find? (fun p => !outcomeOk p.2) with
        | none =>
          rw [hf] at hrn
          exact absurd hrn (by simp)
        | some p =>
          rw [hf] at hrn
          exact ⟨p, rfl, hrn.symm⟩
      obtain ⟨p, hf, hp2⟩ := hfind
      rw [List.flatten_cons, List.find?_append, hf,
        dropTableRun_cons_error shard rest e attempted hsh]
      exact hp2.symm

/-- C5 (amended): `drop_table`/`create_table`/`clone_table` iterate the
replicas of every shard sequentially and abort at the first replica whose
RPC fails, returning that replica's error alone (no list of failed
addresses); they succeed exactly when the operation succeeds on every
replica of every shard, and `create_table`/`clone_table` run the identical
loop. -/
theorem admin_fanout_first_error (shards : List NodeOutcomes) :
    ((dropTableRun shards).1 = .ok () ↔ ∀ p ∈ shards.flatten, p.2 = .ok ())
    ∧ (dropTableRun shards).1
        = (match shards.flatten.find? (fun p => !outcomeOk p.2) with
          | none => Except.ok ()
          | some p => p.2)
    ∧ createTableRun shards = dropTableRun shards
    ∧ cloneTableRun shards = dropTableRun shards := by
  refine ⟨?_, dropTable_first_error shards, rfl, rfl⟩
  rw [dropTable_first_error shards]
  cases hf : shards.flatten.find? (fun p => !outcomeOk p.2) with
  | none =>
    constructor
    · intro _ p hp
      have hnp := List.find?_eq_none.mp hf p hp
      have hok : outcomeOk p.2 = true := by simpa using hnp
      cases hp2 : p.2 with
      | ok u => cases u; rfl
      | error e2 => rw [hp2] at hok; simp [outcomeOk] at hok
    · intro _; rfl
  | some p =>
    have hpred := List.find?_some hf
    have hmem := List.mem_of_find?_eq_some hf
    constructor
    · intro hok
      have hok2 : p.2 = Except.ok () := hok
      rw [hok2] at hpred
      simp [outcomeOk] at hpred
    · intro hall
      rw [hall p hmem] at hpred
      simp [outcomeOk] at hpred

/-- Witness for `admin_fanout_first_error`: one shard with one healthy
replica succeeds. -/
theorem admin_fanout_first_error_witness :
    (dropTableRun [[("n1", Except.ok ())]]).1 = .ok () :=
  (admin_fanout_first_error [[("n1", Except.ok ())]]).1.mpr (by simp)

/-- C5 (counterexample): the fan-out aborts at the first failing replica, so
a run where only `n1` fails and a run where both `n1` and `n2` fail return
the *same* value — the reported result therefore cannot list the failed
addresses (`[n1]` vs `[n1, n2]`) — and in the second run `n2` is never
attempted. -/
theorem admin_fanout_counterexample :
    dropTableRun [[("n1", .error "io"), ("n2", .ok ())]]
      = dropTableRun [[("n1", .error "io"), ("n2", .error "io")]]
    ∧ failedAddrs [[("n1", .error "io"), ("n2", .ok ())]] = ["n1"]
    ∧ failedAddrs [[("n1", .error "io"), ("n2", .error "io")]] = ["n1", "n2"]
    ∧ (["n1"] : List SocketAddr) ≠ ["n1", "n2"]
    ∧ (dropTableRun [[("n1", .error "io"), ("n2", .error "io")]]).2 = ["n1"] := by
  refine ⟨rfl, rfl, rfl, by simp, rfl⟩

/-- C6: `canonical_or_self` returns the canonical URL when the index has an
entry (the `Some(url)` pattern binding shadows the parameter) and the input
URL when it has none, and `process_job` applies it to both the source and
the destination of each link when a canonical index is configured. -/
theorem canonical_links (index : CanonicalIndex) (u c : Url) (link : Link) :
    (index u = some c → canonicalOrSelf index u = c)
    ∧ (index u = none → canonicalOrSelf index u = u)
    ∧ (processLink (some index) link).source = canonicalOrSelf index link.source
    ∧ (processLink (some index) link).destination
        = canonicalOrSelf index link.destination := by
  refine ⟨?_, ?_, rfl, rfl⟩
  · intro h
    simp [canonicalOrSelf, h]
  · intro h
    simp [canonicalOrSelf, h]

/-- Witness for `canonical_links` at a one-entry index. -/
theorem canonical_links_witness :
    ((fun u => if u = "http://a/" then some "http://canon/" else none) : CanonicalIndex)
        "http://a/" = some "http://canon/"
    ∧ canonicalOrSelf
        (fun u => if u = "http://a/" then some "http://canon/" else none)
        "http://a/" = "http://canon/" :=
  ⟨by simp,
   (canonical_links (fun u => if u = "http://a/" then some "http://canon/" else none)
      "http://a/" "http://canon/" ⟨"s", "d", [], 0⟩).1 (by simp)⟩

/-- Starting with an absent buffer behaves like starting with an empty
buffered batch. -/
theorem streamTake_none_empty (fuel : Nat) (src : List (Except String (List T))) :
    streamTake fuel { src := src, batch := none }
      = streamTake fuel { src := src, batch := some [] } := by
  cases fuel with
  | zero => rfl
  | succ f =>
    cases src with
    | nil => rfl
    | cons r rest =>
      cases r with
      | error e => rfl
      | ok b =>
        cases b with
        | nil => rfl
        | cons x xs => rfl

/-- A stream whose next upstream answer is an error yields nothing more. -/
theorem streamTake_error_halts (fuel : Nat) (e : String)
    (rest : List (Except String (List T))) :
    streamTake fuel { src := .error e :: rest, batch := some [] } = [] := by
  cases fuel <;> rfl

/-- A stream whose next upstream answer is an empty batch yields nothing
more. -/
theorem streamTake_empty_halts (fuel : Nat)
    (rest : List (Except String (List T))) :
    streamTake fuel { src := .ok [] :: rest, batch := some ([] : List T) } = [] := by
  cases fuel <;> rfl

/-- A stream over an exhausted source yields nothing more. -/
theorem streamTake_exhausted_halts (fuel : Nat) :
    streamTake fuel ⟨([] : List (Except String (List T))), some []⟩ = [] := by
  cases fuel <;> rfl

/-- Draining a buffered batch yields its elements in reverse (`Vec::pop`
takes from the back), ending with an empty buffer. -/
theorem streamTake_pop_run (r : List T) : ∀ (src : List (Except String (List T)))
    (fuel : Nat),
    streamTake (fuel + r.length) { src := src, batch := some r.reverse }
      = r ++ streamTake fuel { src := src, batch := some [] } := by
  induction r with
  | nil => intro src fuel; simp
  | cons x r' ih =>
    intro src fuel
    have hstep : pollNext { src := src, batch := some ((x :: r').reverse) }
        = (some x, { src := src, batch := some r'.reverse }) := by
      rw [List.reverse_cons]
      have hpp : pollNext { src := src, batch := some (r'.reverse ++ [x]) }
          = pollPop { src := src, batch := some (r'.reverse ++ [x]) } := rfl
      rw [hpp]
      unfold pollPop
      dsimp only
      rw [if_neg (by simp)]
      unfold popBatch
      dsimp only
      rw [List.getLast?_concat, List.dropLast_concat]
    calc streamTake (fuel + (x :: r').length)
          { src := src, batch := some ((x :: r').reverse) }
        = x :: streamTake (fuel + r'.length)
            { src := src, batch := some r'.reverse } := by
          show streamTake ((fuel + r'.length) + 1)
            { src := src, batch := some ((x :: r').reverse) }
            = x :: streamTake (fuel + r'.length)
                { src := src, batch := some r'.reverse }
          conv_lhs => unfold streamTake
          rw [hstep]
      _ = x :: (r' ++ streamTake fuel { src := src, batch := some [] }) := by
          rw [ih src fuel]
      _ = (x :: r') ++ streamTake fuel { src := src, batch := some [] } := rfl

/-- Refilling an emptied buffer from a non-empty `Ok` batch behaves like
having buffered that batch directly. -/
theorem streamTake_refill (b : List T) (hb : b ≠ [])
    (rest : List (Except String (List T))) (fuel : Nat) :
    streamTake fuel { src := .ok b :: rest, batch := some [] }
      = streamTake fuel { src := rest, batch := some b } := by
  cases fuel with
  | zero => rfl
  | succ f =>
    cases b with
    | nil => exact absurd rfl hb
    | cons x xs => rfl

/-- Consuming a run of non-empty `Ok` batches yields each batch reversed, in
batch order. -/
theorem streamTake_batches (bs : List (List T)) :
    ∀ (rest : List (Except String (List T))) (fuel : Nat),
    (∀ b ∈ bs, b ≠ []) →
    streamTake (fuel + (bs.map List.length).sum)
        { src := bs.map .ok ++ rest, batch := some [] }
      = (bs.map List.reverse).flatten
          ++ streamTake fuel { src := rest, batch := some [] } := by
  induction bs with
  | nil =>
    intro rest fuel _
    simp
  | cons b bs' ih =>
    intro rest fuel hbs
    have hb : b ≠ [] := hbs b (by simp)
    have harith : fuel + ((b :: bs').map List.length).sum
        = ((fuel + (bs'.map List.length).sum) + b.reverse.length) := by
      simp
      omega
    rw [harith, List.map_cons, List.cons_append,
      streamTake_refill b hb (bs'.map Except.ok ++ rest)
        ((fuel + (bs'.map List.length).sum) + b.reverse.length)]
    have hpop := streamTake_pop_run (b.reverse) (bs'.map Except.ok ++ rest)
      (fuel + (bs'.map List.length).sum)
    rw [List.reverse_reverse] at hpop
    rw [hpop, ih rest fuel (fun b₂ hb₂ => hbs b₂ (by simp [hb₂]))]
    simp

/-- The item sequence of the adapter over non-empty `Ok` batches followed by
any halting tail: each batch reversed, nothing from the tail. -/
theorem streamItems_batches (bs : List (List T))
    (tail : List (Except String (List T)))
    (hbs : ∀ b ∈ bs, b ≠ [])
    (hhalt : ∀ fuel, streamTake fuel { src := tail, batch := some ([] : List T) } = []) :
    streamItems (bs.map .ok ++ tail) = (bs.map List.reverse).flatten := by
  unfold streamItems
  rw [streamTake_none_empty]
  have hsum : sourceFuel (bs.map .ok ++ tail)
      = (sourceFuel tail) + (bs.map List.length).sum := by
    unfold sourceFuel
    rw [List.map_append, List.sum_append, List.map_map]
    have hmm : (batchSize ∘ (Except.ok (ε := String)) : List T → Nat)
        = List.length := by
      funext b
      rfl
    rw [hmm]
    omega
  rw [hsum, streamTake_batches bs tail (sourceFuel tail) hbs,
    hhalt (sourceFuel tail), List.append_nil]

/-- C8: the adapter's stream ends as soon as `next_batch` returns an error
or an empty batch; the error is never propagated as an item — every item
comes from an `Ok` batch before the terminal answer — and nothing after the
terminal answer is ever yielded. -/
theorem streaming_response_terminates (T : Type) (bs : List (List T))
    (junk : List (Except String (List T))) (e : String)
    (hbs : ∀ b ∈ bs, b ≠ []) :
    streamItems (bs.map .ok ++ .error e :: junk) = (bs.map List.reverse).flatten
    ∧ streamItems (bs.map .ok ++ .ok [] :: junk)
        = (bs.map List.reverse).flatten :=
  ⟨streamItems_batches bs (.error e :: junk) hbs
      (fun fuel => streamTake_error_halts fuel e junk),
   streamItems_batches bs (.ok [] :: junk) hbs
      (fun fuel => streamTake_empty_halts fuel junk)⟩

/-- Witness for `streaming_response_terminates`: batches `[1,2]` and `[3]`
before an error, with a further batch `[99]` behind it that is never
reached. -/
theorem streaming_response_terminates_witness :
    streamItems ([[1, 2], [3]].map .ok ++ .error "boom" :: [.ok [99]])
      = ([[1, 2], [3]].map List.reverse).flatten :=
  (streaming_response_terminates Nat [[1, 2], [3]] [.ok [99]] "boom"
    (by simp)).1

/-- C9: within one batch the adapter yields items in reverse order — the
buffered batch is consumed with `Vec::pop` from the back — so a batch
`[x, y]` is streamed as `[y, x]` and the stream is not in source order. -/
theorem streaming_batch_reversed (T : Type) (b : List T) (x y : T) :
    streamItems [(.ok b : Except String (List T))] = b.reverse
    ∧ streamItems [(.ok [x, y] : Except String (List T))] = [y, x] := by
  have hgen : ∀ c : List T,
      streamItems [(.ok c : Except String (List T))] = c.reverse := by
    intro c
    cases c with
    | nil => rfl
    | cons z zs =>
      have hh := streamItems_batches (T := T) [z :: zs] []
        (by intro b₂ hb₂; simp at hb₂; simp [hb₂])
        (fun fuel => streamTake_exhausted_halts fuel)
      simpa using hh
  exact ⟨hgen b, by simpa using hgen [x, y]⟩

/-- `read_line` stops at the first line feed. -/
theorem readLine_append (c rest : List Nat) (h : 10 ∉ c) :
    readLine (c ++ 10 :: rest) = (c ++ [10], rest) := by
  induction c with
  | nil => simp [readLine]
  | cons b t ih =>
    have hb : b ≠ 10 := by
      intro hb
      exact h (by simp [hb])
    have ih' := ih (fun hm => h (List.mem_cons_of_mem b hm))
    simp [readLine, hb, ih']

/-- `read_line` reads everything when no line feed remains. -/
theorem readLine_noLF (l : List Nat) (h : 10 ∉ l) : readLine l = (l, []) := by
  induction l with
  | nil => rfl
  | cons b t ih =>
    have hb : b ≠ 10 := by
      intro hb
      exact h (by simp [hb])
    have ih' := ih (fun hm => h (List.mem_cons_of_mem b hm))
    simp [readLine, hb, ih']

/-- The first colon of `key ++ ':' ++ tail` is at `key.length` when the key
has none. -/
theorem findIdx58 (key : List Nat) (h : 58 ∉ key) (tail : List Nat) :
    (key ++ 58 :: tail).findIdx? (fun b => b == 58) = some key.length := by
  induction key with
  | nil => simp [List.findIdx?]
  | cons b t ih =>
    have hb : b ≠ 58 := by
      intro hb
      exact h (by simp [hb])
    have ih' := ih (fun hm => h (List.mem_cons_of_mem b hm))
    simp [List.findIdx?_cons, hb, ih']

/-- Every byte of a decimal rendering is an ASCII digit. -/
theorem decAux_digits (fuel : Nat) :
    ∀ (n : Nat), ∀ b ∈ decAux fuel n, 48 ≤ b ∧ b ≤ 57 := by
  induction fuel with
  | zero =>
    intro n b hb
    simp [decAux] at hb
  | succ f ih =>
    intro n b hb
    unfold decAux at hb
    by_cases h0 : n = 0
    · simp [h0] at hb
    · rw [if_neg h0] at hb
      rcases List.mem_append.mp hb with h | h
      · exact ih (n / 10) b h
      · have : b = 48 + n % 10 := by simpa using h
        have := Nat.mod_lt n (show 0 < 10 by norm_num)
        omega

/-- Every byte of `decBytes` is an ASCII digit. -/
theorem decBytes_digits (n : Nat) : ∀ b ∈ decBytes n, 48 ≤ b ∧ b ≤ 57 := by
  unfold decBytes
  by_cases h0 : n = 0
  · simp [h0]
  · rw [if_neg h0]
    exact decAux_digits n n

/-- A decimal rendering is never empty. -/
theorem decBytes_ne_nil (n : Nat) : decBytes n ≠ [] := by
  unfold decBytes
  by_cases h0 : n = 0
  · simp [h0]
  · rw [if_neg h0]
    obtain ⟨m, rfl⟩ := Nat.exists_eq_succ_of_ne_zero h0
    simp [decAux]

/-- `parseDecAux` over a decimal rendering accumulates exactly the rendered
number. -/
theorem parseDecAux_decAux (fuel : Nat) :
    ∀ (n : Nat), n < 10 ^ fuel → ∀ (acc : Nat) (rest : List Nat),
    parseDecAux (decAux fuel n ++ rest) acc
      = parseDecAux rest (acc * 10 ^ (decAux fuel n).length + n) := by
  induction fuel with
  | zero =>
    intro n hn acc rest
    have h0 : n = 0 := by omega
    subst h0
    simp [decAux]
  | succ f ih =>
    intro n hn acc rest
    by_cases h0 : n = 0
    · subst h0
      simp [decAux]
    · unfold decAux
      rw [if_neg h0, List.append_assoc]
      simp only [List.singleton_append]
      have hdiv : n / 10 < 10 ^ f := by
        have hp : (10 : Nat) ^ (f + 1) = 10 ^ f * 10 := pow_succ 10 f
        rw [hp] at hn
        exact (Nat.div_lt_iff_lt_mul (by norm_num)).mpr hn
      rw [ih (n / 10) hdiv acc ((48 + n % 10) :: rest)]
      have hd : (48 : Nat) ≤ 48 + n % 10 ∧ 48 + n % 10 ≤ 57 := by
        have := Nat.mod_lt n (show 0 < 10 by norm_num)
        omega
      have harith : (acc * 10 ^ (decAux f (n / 10)).length + n / 10) * 10 + (48 + n % 10 - 48)
          = acc * 10 ^ (decAux f (n / 10) ++ [48 + n % 10]).length + n := by
        have hlen : (decAux f (n / 10) ++ [48 + n % 10]).length
            = (decAux f (n / 10)).length + 1 := by simp
        rw [hlen, pow_succ]
        have hsub : 48 + n % 10 - 48 = n % 10 := by omega
        rw [hsub]
        have hmod := Nat.div_add_mod n 10
        calc (acc * 10 ^ (decAux f (n / 10)).length + n / 10) * 10 + n % 10
            = acc * (10 ^ (decAux f (n / 10)).length * 10)
                + (10 * (n / 10) + n % 10) := by ring
          _ = acc * (10 ^ (decAux f (n / 10)).length * 10) + n := by rw [hmod]
      conv_lhs => rw [parseDecAux]
      rw [if_pos hd, harith]

/-- `parse::<u64>` inverts `format!` on unsigned integers. -/
theorem parseDec_decBytes (n : Nat) : parseDec (decBytes n) = some n := by
  by_cases h0 : n = 0
  · subst h0
    decide
  · have hne := decBytes_ne_nil n
    unfold parseDec
    rw [if_neg hne]
    unfold decBytes at hne ⊢
    rw [if_neg h0] at hne ⊢
    have hlt : n < 10 ^ n := Nat.lt_pow_self (by norm_num) n
    have := parseDecAux_decAux n n hlt 0 []
    rw [List.append_nil] at this
    rw [this]
    simp [parseDecAux]

/-- Stripping the line ending of a CRLF-terminated value. -/
theorem stripLineEnd_crlf (v : List Nat) : stripLineEnd (v ++ [13, 10]) = v := by
  unfold stripLineEnd
  rw [if_pos]
  · have h : v ++ [13, 10] = (v ++ [13]) ++ [10] := by simp
    rw [h, List.dropLast_concat, List.dropLast_concat]
  · rw [List.isSuffixOf_iff_suffix]
    exact ⟨v, rfl⟩

/-- A value without line feeds keeps its bytes under `stripLineEnd`. -/
theorem stripLineEnd_no10 (l : List Nat) (h : 10 ∉ l) : stripLineEnd l = l := by
  unfold stripLineEnd
  rw [if_neg, if_neg]
  · intro hs
    rw [List.isSuffixOf_iff_suffix] at hs
    obtain ⟨t, rfl⟩ := hs
    exact h (by simp)
  · intro hs
    rw [List.isSuffixOf_iff_suffix] at hs
    obtain ⟨t, rfl⟩ := hs
    exact h (by simp)

/-- `dropWhile` does not touch a list of non-whitespace bytes. -/
theorem dropWhile_no_ws (l : List Nat) (h : ∀ b ∈ l, isWsByte b = false) :
    l.dropWhile isWsByte = l := by
  cases l with
  | nil => rfl
  | cons b t => simp [List.dropWhile_cons, h b (by simp)]

/-- `trim` of a single leading space before a digit string. -/
theorem trimWs_space (l : List Nat) (h : ∀ b ∈ l, isWsByte b = false) :
    trimWs (32 :: l) = l := by
  unfold trimWs
  have h32 : isWsByte 32 = true := by decide
  rw [List.dropWhile_cons]
  simp only [h32, if_true]
  rw [dropWhile_no_ws l h,
    dropWhile_no_ws l.reverse (fun b hb => h b (List.mem_reverse.mp hb)),
    List.reverse_reverse]

/-- One header line of the writer parses into one uppercased binding. -/
theorem parseHeaders_header_line (fuel : Nat) (key v rest : List Nat)
    (m : List (List Nat × List Nat))
    (hk10 : 10 ∉ key) (hk58 : 58 ∉ key) (hv10 : 10 ∉ v) :
    parseHeaders (fuel + 1) (headerLine key v ++ rest) m
      = parseHeaders fuel rest (assocPut m (toUpper key) v) := by
  have hline : headerLine key v ++ rest
      = (key ++ 58 :: 32 :: (v ++ [13])) ++ 10 :: rest := by
    simp [headerLine, CRLF]
  have hno10 : (10 : Nat) ∉ key ++ 58 :: 32 :: (v ++ [13]) := by
    intro hm
    simp only [List.mem_append, List.mem_cons, List.not_mem_nil, or_false] at hm
    rcases hm with h | h | h | h | h
    · exact hk10 h
    · omega
    · omega
    · exact hv10 h
    · omega
  have hrl := readLine_append (key ++ 58 :: 32 :: (v ++ [13])) rest hno10
  have hlineval : (key ++ 58 :: 32 :: (v ++ [13])) ++ [10]
      = key ++ 58 :: 32 :: (v ++ [13, 10]) := by simp
  simp only [parseHeaders]
  rw [hline, hrl]
  dsimp only
  rw [hlineval]
  have hne2 : key ++ 58 :: 32 :: (v ++ [13, 10]) ≠ [13, 10] := by
    intro he
    have := congrArg List.length he
    simp at this
    omega
  have hnen : key ++ 58 :: 32 :: (v ++ [13, 10]) ≠ [] := by simp
  rw [if_neg (by simp only [not_or]; exact ⟨hne2, hnen⟩)]
  rw [findIdx58 key hk58 (32 :: (v ++ [13, 10]))]
  dsimp only
  have hsplit : key ++ 58 :: 32 :: (v ++ [13, 10])
      = (key ++ [58]) ++ (32 :: (v ++ [13, 10])) := by simp
  have hdrop : (key ++ 58 :: 32 :: (v ++ [13, 10])).drop (key.length + 1)
      = 32 :: (v ++ [13, 10]) := by
    rw [hsplit, show key.length + 1 = (key ++ [58]).length from by simp,
      List.drop_left]
  have htake : (key ++ 58 :: 32 :: (v ++ [13, 10])).take (key.length + 1)
      = key ++ [58] := by
    rw [hsplit, show key.length + 1 = (key ++ [58]).length from by simp,
      List.take_left]
  rw [hdrop, htake, List.dropLast_concat]
  rw [show 32 :: (v ++ [13, 10]) = (32 :: v) ++ [13, 10] from by simp,
    stripLineEnd_crlf]
  rfl

/-- The blank line ends the header block. -/
theorem parseHeaders_blank (fuel : Nat) (rest : List Nat)
    (m : List (List Nat × List Nat)) :
    parseHeaders (fuel + 1) (CRLF ++ rest) m = (.ok m, rest) := by
  have hrl : readLine (CRLF ++ rest) = ([13, 10], rest) := by
    have h := readLine_append [13] rest (by simp)
    simpa [CRLF] using h
  simp only [parseHeaders]
  rw [show CRLF ++ rest = [13] ++ 10 :: rest from by simp [CRLF]] at hrl ⊢
  rw [hrl]
  dsimp only
  rw [if_pos (Or.inl rfl)]

/-- `next_raw` on the writer's `request` record: three headers, empty
content. -/
theorem nextRaw_request (fuel : Nat) (url rest : List Nat) (h10 : 10 ∉ url)
    (hf : 4 ≤ fuel) :
    nextRaw fuel (requestBytes url ++ rest)
      = some (.ok ⟨[(ascii "WARC-TYPE", ascii "request"),
          (ascii "WARC-TARGET-URI", url),
          (ascii "CONTENT-LENGTH", ascii "0")], []⟩, rest) := by
  obtain ⟨f, rfl⟩ : ∃ f, fuel = f + 1 + 1 + 1 + 1 := ⟨fuel - 4, by omega⟩
  have hshape : requestBytes url ++ rest
      = ascii "WARC/1.0\r\n" ++ (headerLine (ascii "WARC-Type") (ascii "request")
          ++ (headerLine (ascii "WARC-Target-URI") url
          ++ (headerLine (ascii "Content-Length") (decBytes 0)
          ++ (CRLF ++ ([13, 10, 13, 10] ++ rest))))) := by
    simp [requestBytes, List.append_assoc,
      show (ascii "\r\n\r\n" : List Nat) = [13, 10, 13, 10] from rfl]
  have hver : readLine (requestBytes url ++ rest)
      = (ascii "WARC/1.0\r\n", headerLine (ascii "WARC-Type") (ascii "request")
          ++ (headerLine (ascii "WARC-Target-URI") url
          ++ (headerLine (ascii "Content-Length") (decBytes 0)
          ++ (CRLF ++ ([13, 10, 13, 10] ++ rest))))) := by
    rw [hshape]
    rfl
  unfold nextRaw
  rw [hver]
  dsimp only
  rw [if_neg (by decide), if_neg (by decide)]
  rw [parseHeaders_header_line (f + 1 + 1 + 1) _ _ _ _
      (by decide) (by decide) (by decide),
    parseHeaders_header_line (f + 1 + 1) _ _ _ _
      (by decide) (by decide) h10,
    parseHeaders_header_line (f + 1) _ _ _ _
      (by decide) (by decide) (by decide),
    parseHeaders_blank]
  dsimp only
  rw [show assocGet (assocPut (assocPut (assocPut []
        (toUpper (ascii "WARC-Type")) (ascii "request"))
        (toUpper (ascii "WARC-Target-URI")) url)
        (toUpper (ascii "Content-Length")) (decBytes 0))
        (ascii "CONTENT-LENGTH") = some (ascii "0") from rfl]
  dsimp only
  rw [show parseDec (ascii "0") = some 0 from rfl]
  dsimp only
  rw [if_neg (by simp)]
  simp only [List.take_zero, List.drop_zero]
  rw [if_neg (by simp)]
  have htk : List.take 4 ([13, 10, 13, 10] ++ rest) = [13, 10, 13, 10] := rfl
  have hdr4 : List.drop 4 ([13, 10, 13, 10] ++ rest) = rest := rfl
  rw [if_pos htk, hdr4]
  rfl

/-- `next_raw` on the writer's `response` record without an identified
payload type: the content is the `"\r\n\r\n"` separator plus the body. -/
theorem nextRaw_response_none (fuel : Nat) (body rest : List Nat)
    (hf : 4 ≤ fuel) :
    nextRaw fuel (responseBytes body none ++ rest)
      = some (.ok ⟨[(ascii "WARC-TYPE", ascii "response"),
          (ascii "CONTENT-LENGTH", decBytes (body.length + 4))],
          [13, 10, 13, 10] ++ body⟩, rest) := by
  obtain ⟨f, rfl⟩ : ∃ f, fuel = f + 1 + 1 + 1 := ⟨fuel - 3, by omega⟩
  have hshape : responseBytes body none ++ rest
      = ascii "WARC/1.0\r\n" ++ (headerLine (ascii "WARC-Type") (ascii "response")
          ++ (headerLine (ascii "Content-Length") (decBytes (body.length + 4))
          ++ (CRLF ++ (([13, 10, 13, 10] ++ body) ++ ([13, 10, 13, 10] ++ rest))))) := by
    simp [responseBytes, List.append_assoc,
      show (ascii "\r\n\r\n" : List Nat) = [13, 10, 13, 10] from rfl]
  have hver : readLine (responseBytes body none ++ rest)
      = (ascii "WARC/1.0\r\n", headerLine (ascii "WARC-Type") (ascii "response")
          ++ (headerLine (ascii "Content-Length") (decBytes (body.length + 4))
          ++ (CRLF ++ (([13, 10, 13, 10] ++ body) ++ ([13, 10, 13, 10] ++ rest))))) := by
    rw [hshape]
    rfl
  have h10cl : (10 : Nat) ∉ decBytes (body.length + 4) := by
    intro hm
    have := decBytes_digits (body.length + 4) 10 hm
    omega
  unfold nextRaw
  rw [hver]
  dsimp only
  rw [if_neg (by decide), if_neg (by decide)]
  rw [parseHeaders_header_line (f + 1 + 1) _ _ _ _
      (by decide) (by decide) (by decide),
    parseHeaders_header_line (f + 1) _ _ _ _
      (by decide) (by decide) h10cl,
    parseHeaders_blank]
  dsimp only
  rw [show assocGet (assocPut (assocPut []
        (toUpper (ascii "WARC-Type")) (ascii "response"))
        (toUpper (ascii "Content-Length")) (decBytes (body.length + 4)))
        (ascii "CONTENT-LENGTH") = some (decBytes (body.length + 4)) from rfl]
  dsimp only
  rw [parseDec_decBytes (body.length + 4)]
  dsimp only
  have hlen : ([13, 10, 13, 10] ++ body).length = body.length + 4 := by
    simp
  rw [if_neg (by simp)]
  rw [List.take_left' hlen, List.drop_left' hlen]
  rw [if_neg (by simp)]
  have htk : List.take 4 ([13, 10, 13, 10] ++ rest) = [13, 10, 13, 10] := rfl
  have hdr4 : List.drop 4 ([13, 10, 13, 10] ++ rest) = rest := rfl
  rw [if_pos htk, hdr4]
  rfl

/-- `next_raw` on the writer's `response` record with an identified payload
type. -/
theorem nextRaw_response_some (fuel : Nat) (body rest : List Nat)
    (p : WPayloadType) (hf : 5 ≤ fuel) :
    nextRaw fuel (responseBytes body (some p) ++ rest)
      = some (.ok ⟨[(ascii "WARC-TYPE", ascii "response"),
          (ascii "WARC-IDENTIFIED-PAYLOAD-TYPE", payloadTypeStr p),
          (ascii "CONTENT-LENGTH", decBytes (body.length + 4))],
          [13, 10, 13, 10] ++ body⟩, rest) := by
  obtain ⟨f, rfl⟩ : ∃ f, fuel = f + 1 + 1 + 1 + 1 := ⟨fuel - 4, by omega⟩
  have hshape : responseBytes body (some p) ++ rest
      = ascii "WARC/1.0\r\n" ++ (headerLine (ascii "WARC-Type") (ascii "response")
          ++ (headerLine (ascii "WARC-Identified-Payload-Type") (payloadTypeStr p)
          ++ (headerLine (ascii "Content-Length") (decBytes (body.length + 4))
          ++ (CRLF ++ (([13, 10, 13, 10] ++ body) ++ ([13, 10, 13, 10] ++ rest)))))) := by
    simp [responseBytes, List.append_assoc,
      show (ascii "\r\n\r\n" : List Nat) = [13, 10, 13, 10] from rfl]
  have hver : readLine (responseBytes body (some p) ++ rest)
      = (ascii "WARC/1.0\r\n", headerLine (ascii "WARC-Type") (ascii "response")
          ++ (headerLine (ascii "WARC-Identified-Payload-Type") (payloadTypeStr p)
          ++ (headerLine (ascii "Content-Length") (decBytes (body.length + 4))
          ++ (CRLF ++ (([13, 10, 13, 10] ++ body) ++ ([13, 10, 13, 10] ++ rest)))))) := by
    rw [hshape]
    rfl
  have h10cl : (10 : Nat) ∉ decBytes (body.length + 4) := by
    intro hm
    have := decBytes_digits (body.length + 4) 10 hm
    omega
  have h10pt : (10 : Nat) ∉ payloadTypeStr p := by
    cases p <;> decide
  unfold nextRaw
  rw [hver]
  dsimp only
  rw [if_neg (by decide), if_neg (by decide)]
  rw [parseHeaders_header_line (f + 1 + 1 + 1) _ _ _ _
      (by decide) (by decide) (by decide),
    parseHeaders_header_line (f + 1 + 1) _ _ _ _
      (by decide) (by decide) h10pt,
    parseHeaders_header_line (f + 1) _ _ _ _
      (by decide) (by decide) h10cl,
    parseHeaders_blank]
  dsimp only
  rw [show assocGet (assocPut (assocPut (assocPut []
        (toUpper (ascii "WARC-Type")) (ascii "response"))
        (toUpper (ascii "WARC-Identified-Payload-Type")) (payloadTypeStr p))
        (toUpper (ascii "Content-Length")) (decBytes (body.length + 4)))
        (ascii "CONTENT-LENGTH") = some (decBytes (body.length + 4)) from rfl]
  dsimp only
  rw [parseDec_decBytes (body.length + 4)]
  dsimp only
  have hlen : ([13, 10, 13, 10] ++ body).length = body.length + 4 := by
    simp
  rw [if_neg (by simp)]
  rw [List.take_left' hlen, List.drop_left' hlen]
  rw [if_neg (by simp)]
  have htk : List.take 4 ([13, 10, 13, 10] ++ rest) = [13, 10, 13, 10] := rfl
  have hdr4 : List.drop 4 ([13, 10, 13, 10] ++ rest) = rest := rfl
  rw [if_pos htk, hdr4]
  rfl

/-- `next_raw` on the writer's `metadata` record. -/
theorem nextRaw_metadata (fuel : Nat) (t : Nat) (rest : List Nat)
    (hf : 4 ≤ fuel) :
    nextRaw fuel (metadataBytes t ++ rest)
      = some (.ok ⟨[(ascii "WARC-TYPE", ascii "metadata"),
          (ascii "CONTENT-LENGTH", decBytes (metaContent t).length)],
          metaContent t⟩, rest) := by
  obtain ⟨f, rfl⟩ : ∃ f, fuel = f + 1 + 1 + 1 := ⟨fuel - 3, by omega⟩
  have hshape : metadataBytes t ++ rest
      = ascii "WARC/1.0\r\n" ++ (headerLine (ascii "WARC-Type") (ascii "metadata")
          ++ (headerLine (ascii "Content-Length") (decBytes (metaContent t).length)
          ++ (CRLF ++ (metaContent t ++ ([13, 10, 13, 10] ++ rest))))) := by
    simp [metadataBytes, List.append_assoc,
      show (ascii "\r\n\r\n" : List Nat) = [13, 10, 13, 10] from rfl]
  have hver : readLine (metadataBytes t ++ rest)
      = (ascii "WARC/1.0\r\n", headerLine (ascii "WARC-Type") (ascii "metadata")
          ++ (headerLine (ascii "Content-Length") (decBytes (metaContent t).length)
          ++ (CRLF ++ (metaContent t ++ ([13, 10, 13, 10] ++ rest))))) := by
    rw [hshape]
    rfl
  have h10cl : (10 : Nat) ∉ decBytes (metaContent t).length := by
    intro hm
    have := decBytes_digits (metaContent t).length 10 hm
    omega
  unfold nextRaw
  rw [hver]
  dsimp only
  rw [if_neg (by decide), if_neg (by decide)]
  rw [parseHeaders_header_line (f + 1 + 1) _ _ _ _
      (by decide) (by decide) (by decide),
    parseHeaders_header_line (f + 1) _ _ _ _
      (by decide) (by decide) h10cl,
    parseHeaders_blank]
  dsimp only
  rw [show assocGet (assocPut (assocPut []
        (toUpper (ascii "WARC-Type")) (ascii "metadata"))
        (toUpper (ascii "Content-Length")) (decBytes (metaContent t).length))
        (ascii "CONTENT-LENGTH") = some (decBytes (metaContent t).length) from rfl]
  dsimp only
  rw [parseDec_decBytes (metaContent t).length]
  dsimp only
  have hlen : (metaContent t).length = (metaContent t).length := rfl
  rw [if_neg (by simp)]
  rw [List.take_left' hlen, List.drop_left' hlen]
  rw [if_neg (by simp)]
  have htk : List.take 4 ([13, 10, 13, 10] ++ rest) = [13, 10, 13, 10] := rfl
  have hdr4 : List.drop 4 ([13, 10, 13, 10] ++ rest) = rest := rfl
  rw [if_pos htk, hdr4]
  rfl

/-- `next_raw` on the writer's `warcinfo` preamble, for an arbitrary date. -/
theorem nextRaw_warcinfo (fuel : Nat) (date rest : List Nat) (hf : 4 ≤ fuel) :
    nextRaw fuel (warcinfoBytes date ++ rest)
      = some (.ok ⟨[(ascii "WARC-TYPE", ascii "warcinfo"),
          (ascii "CONTENT-LENGTH",
            decBytes (ascii "ISPARTOF: crawl[" ++ date ++ ascii "]").length)],
          ascii "ISPARTOF: crawl[" ++ date ++ ascii "]"⟩, rest) := by
  obtain ⟨f, rfl⟩ : ∃ f, fuel = f + 1 + 1 + 1 := ⟨fuel - 3, by omega⟩
  have hshape : warcinfoBytes date ++ rest
      = ascii "WARC/1.0\r\n" ++ (headerLine (ascii "WARC-Type") (ascii "warcinfo")
          ++ (headerLine (ascii "Content-Length")
              (decBytes (ascii "ISPARTOF: crawl[" ++ date ++ ascii "]").length)
          ++ (CRLF ++ ((ascii "ISPARTOF: crawl[" ++ date ++ ascii "]")
              ++ ([13, 10, 13, 10] ++ rest))))) := by
    simp [warcinfoBytes, List.append_assoc,
      show (ascii "\r\n\r\n" : List Nat) = [13, 10, 13, 10] from rfl]
  have hver : readLine (warcinfoBytes date ++ rest)
      = (ascii "WARC/1.0\r\n", headerLine (ascii "WARC-Type") (ascii "warcinfo")
          ++ (headerLine (ascii "Content-Length")
              (decBytes (ascii "ISPARTOF: crawl[" ++ date ++ ascii "]").length)
          ++ (CRLF ++ ((ascii "ISPARTOF: crawl[" ++ date ++ ascii "]")
              ++ ([13, 10, 13, 10] ++ rest))))) := by
    rw [hshape]
    rfl
  have h10cl : (10 : Nat)
      ∉ decBytes (ascii "ISPARTOF: crawl[" ++ date ++ ascii "]").length := by
    intro hm
    have := decBytes_digits (ascii "ISPARTOF: crawl[" ++ date ++ ascii "]").length 10 hm
    omega
  unfold nextRaw
  rw [hver]
  dsimp only
  rw [if_neg (by decide), if_neg (by decide)]
  rw [parseHeaders_header_line (f + 1 + 1) _ _ _ _
      (by decide) (by decide) (by decide),
    parseHeaders_header_line (f + 1) _ _ _ _
      (by decide) (by decide) h10cl,
    parseHeaders_blank]
  dsimp only
  rw [show assocGet (assocPut (assocPut []
        (toUpper (ascii "WARC-Type")) (ascii "warcinfo"))
        (toUpper (ascii "Content-Length"))
        (decBytes (ascii "ISPARTOF: crawl[" ++ date ++ ascii "]").length))
        (ascii "CONTENT-LENGTH")
        = some (decBytes (ascii "ISPARTOF: crawl[" ++ date ++ ascii "]").length)
        from rfl]
  dsimp only
  rw [parseDec_decBytes (ascii "ISPARTOF: crawl[" ++ date ++ ascii "]").length]
  dsimp only
  have hlen : (ascii "ISPARTOF: crawl[" ++ date ++ ascii "]").length
      = (ascii "ISPARTOF: crawl[" ++ date ++ ascii "]").length := rfl
  rw [if_neg (by simp)]
  rw [List.take_left' hlen, List.drop_left' hlen]
  rw [if_neg (by simp)]
  have htk : List.take 4 ([13, 10, 13, 10] ++ rest) = [13, 10, 13, 10] := rfl
  have hdr4 : List.drop 4 ([13, 10, 13, 10] ++ rest) = rest := rfl
  rw [if_pos htk, hdr4]
  rfl

/-- `Response::from_raw` on the writer's response content, with an
identified payload type: the `Display`/`FromStr` pair round-trips the
payload type and `split_once` recovers the body exactly. -/
theorem responseFromRaw_some (body : List Nat) (p : WPayloadType) :
    responseFromRaw ⟨[(ascii "WARC-TYPE", ascii "response"),
        (ascii "WARC-IDENTIFIED-PAYLOAD-TYPE", payloadTypeStr p),
        (ascii "CONTENT-LENGTH", decBytes (body.length + 4))],
        [13, 10, 13, 10] ++ body⟩
      = .ok ⟨body, some p⟩ := by
  cases p <;> rfl

/-- `Metadata::from_raw` on the writer's `fetchTimeMs` content. -/
theorem metadataFromRaw_eval (t : Nat) (hdr : List (List Nat × List Nat)) :
    metadataFromRaw ⟨hdr, metaContent t⟩ = .ok ⟨t⟩ := by
  have h10 : (10 : Nat) ∉ metaContent t := by
    intro hm
    rcases List.mem_append.mp hm with h | h
    · revert h
      decide
    · have := decBytes_digits t 10 h
      omega
  have hmc : metaContent t = ascii "fetchTimeMs" ++ 58 :: (32 :: decBytes t) := by
    show ascii "fetchTimeMs: " ++ decBytes t = _
    rw [show (ascii "fetchTimeMs: " : List Nat)
        = ascii "fetchTimeMs" ++ [58, 32] from rfl]
    simp
  have hne : metaContent t ≠ [] := by
    rw [hmc]
    simp
  show metaLines ((metaContent t).length + 1) (metaContent t) = .ok ⟨t⟩
  rw [metaLines]
  rw [if_neg hne]
  rw [readLine_noLF _ h10]
  dsimp only
  rw [stripLineEnd_no10 _ h10, hmc,
    findIdx58 (ascii "fetchTimeMs") (by decide) (32 :: decBytes t)]
  dsimp only
  have hsplit : ascii "fetchTimeMs" ++ 58 :: (32 :: decBytes t)
      = (ascii "fetchTimeMs" ++ [58]) ++ (32 :: decBytes t) := by simp
  have hdrop : (ascii "fetchTimeMs" ++ 58 :: (32 :: decBytes t)).drop
      ((ascii "fetchTimeMs").length + 1) = 32 :: decBytes t := by
    rw [hsplit, show (ascii "fetchTimeMs").length + 1
        = (ascii "fetchTimeMs" ++ [58]).length from by simp, List.drop_left]
  have htake : (ascii "fetchTimeMs" ++ 58 :: (32 :: decBytes t)).take
      ((ascii "fetchTimeMs").length + 1) = ascii "fetchTimeMs" ++ [58] := by
    rw [hsplit, show (ascii "fetchTimeMs").length + 1
        = (ascii "fetchTimeMs" ++ [58]).length from by simp, List.take_left]
  rw [hdrop, htake, List.dropLast_concat]
  rw [trimWs_space (decBytes t) (fun b hb => by
    obtain ⟨h1, h2⟩ := decBytes_digits t b hb
    interval_cases b <;> decide)]
  rw [if_pos rfl, parseDec_decBytes t]

set_option maxHeartbeats 2000000 in
set_option maxRecDepth 8000 in
/-- One write of `WarcWriter::write` is read back as exactly one record. -/
theorem nextTriple_record (fuel : Nat) (r : WarcRecord) (rest : List Nat)
    (h10 : 10 ∉ r.request.url) (hf : 6 ≤ fuel) :
    nextTriple fuel (writeRecordBytes r ++ rest) none none none
      = some (.ok r, rest) := by
  obtain ⟨f, rfl⟩ : ∃ f, fuel = f + 1 + 1 + 1 := ⟨fuel - 3, by omega⟩
  obtain ⟨⟨url⟩, ⟨body, pt⟩, ⟨t⟩⟩ := r
  have h10u : 10 ∉ url := h10
  have hshape : writeRecordBytes ⟨⟨url⟩, ⟨body, pt⟩, ⟨t⟩⟩ ++ rest
      = requestBytes url ++ (responseBytes body pt ++ (metadataBytes t ++ rest)) := by
    simp [writeRecordBytes, List.append_assoc]
  rw [hshape, nextTriple,
    nextRaw_request (f + 1 + 1 + 1) url _ h10u (by omega)]
  all_goals try (intro rq rs mt h1 h2 h3; exact Option.noConfusion h3)
  dsimp only
  rw [show assocGet [(ascii "WARC-TYPE", ascii "request"),
      (ascii "WARC-TARGET-URI", url), (ascii "CONTENT-LENGTH", ascii "0")]
      (ascii "WARC-TYPE") = some (ascii "request") from rfl]
  dsimp only
  rw [if_pos rfl, if_neg (by decide)]
  rw [show requestFromRaw ⟨[(ascii "WARC-TYPE", ascii "request"),
      (ascii "WARC-TARGET-URI", url), (ascii "CONTENT-LENGTH", ascii "0")], []⟩
      = Except.ok ⟨url⟩ from rfl]
  dsimp only
  cases pt with
  | none =>
    rw [nextTriple, nextRaw_response_none (f + 1 + 1) body _ (by omega)]
    all_goals try (intro rq rs mt h1 h2 h3; exact Option.noConfusion h3)
    dsimp only
    rw [show assocGet [(ascii "WARC-TYPE", ascii "response"),
        (ascii "CONTENT-LENGTH", decBytes (body.length + 4))]
        (ascii "WARC-TYPE") = some (ascii "response") from rfl]
    dsimp only
    rw [if_neg (by decide), if_pos (Or.inl rfl)]
    rw [show assocGet [(ascii "WARC-TYPE", ascii "response"),
        (ascii "CONTENT-LENGTH", decBytes (body.length + 4))]
        (ascii "CONTENT-TYPE") = none from rfl]
    dsimp only
    rw [if_neg (by decide), if_neg (by decide)]
    rw [show responseFromRaw ⟨[(ascii "WARC-TYPE", ascii "response"),
        (ascii "CONTENT-LENGTH", decBytes (body.length + 4))],
        [13, 10, 13, 10] ++ body⟩ = Except.ok ⟨body, none⟩ from rfl]
    dsimp only
    rw [nextTriple, nextRaw_metadata (f + 1) t rest (by omega)]
    all_goals try (intro rq rs mt h1 h2 h3; exact Option.noConfusion h3)
    dsimp only
    rw [show assocGet [(ascii "WARC-TYPE", ascii "metadata"),
        (ascii "CONTENT-LENGTH", decBytes (metaContent t).length)]
        (ascii "WARC-TYPE") = some (ascii "metadata") from rfl]
    dsimp only
    rw [if_neg (by decide), if_neg (by decide), if_pos rfl]
    rw [show assocGet [(ascii "WARC-TYPE", ascii "metadata"),
        (ascii "CONTENT-LENGTH", decBytes (metaContent t).length)]
        (ascii "CONTENT-TYPE") = none from rfl]
    dsimp only
    rw [if_neg (by decide), if_neg (by decide)]
    rw [metadataFromRaw_eval t]
  | some p =>
    rw [nextTriple, nextRaw_response_some (f + 1 + 1) body _ p (by omega)]
    all_goals try (intro rq rs mt h1 h2 h3; exact Option.noConfusion h3)
    dsimp only
    rw [show assocGet [(ascii "WARC-TYPE", ascii "response"),
        (ascii "WARC-IDENTIFIED-PAYLOAD-TYPE", payloadTypeStr p),
        (ascii "CONTENT-LENGTH", decBytes (body.length + 4))]
        (ascii "WARC-TYPE") = some (ascii "response") from rfl]
    dsimp only
    rw [if_neg (by decide), if_pos (Or.inl rfl)]
    rw [show assocGet [(ascii "WARC-TYPE", ascii "response"),
        (ascii "WARC-IDENTIFIED-PAYLOAD-TYPE", payloadTypeStr p),
        (ascii "CONTENT-LENGTH", decBytes (body.length + 4))]
        (ascii "CONTENT-TYPE") = none from rfl]
    dsimp only
    rw [if_neg (by decide), if_neg (by decide)]
    rw [responseFromRaw_some body p]
    dsimp only
    rw [nextTriple, nextRaw_metadata (f + 1) t rest (by omega)]
    all_goals try (intro rq rs mt h1 h2 h3; exact Option.noConfusion h3)
    dsimp only
    rw [show assocGet [(ascii "WARC-TYPE", ascii "metadata"),
        (ascii "CONTENT-LENGTH", decBytes (metaContent t).length)]
        (ascii "WARC-TYPE") = some (ascii "metadata") from rfl]
    dsimp only
    rw [if_neg (by decide), if_neg (by decide), if_pos rfl]
    rw [show assocGet [(ascii "WARC-TYPE", ascii "metadata"),
        (ascii "CONTENT-LENGTH", decBytes (metaContent t).length)]
        (ascii "CONTENT-TYPE") = none from rfl]
    dsimp only
    rw [if_neg (by decide), if_neg (by decide)]
    rw [metadataFromRaw_eval t]

/-- An exhausted stream yields no further triple. -/
theorem nextTriple_nil (fuel : Nat) :
    nextTriple fuel [] none none none = none := by
  cases fuel <;> rfl

/-- Every written record occupies at least seven bytes. -/
theorem writeRecordBytes_len (r : WarcRecord) :
    7 ≤ (writeRecordBytes r).length := by
  simp only [writeRecordBytes, requestBytes, List.length_append]
  rw [show (ascii "WARC/1.0\r\n").length = 10 from rfl]
  omega

/-- The `warcinfo` preamble occupies at least ten bytes. -/
theorem warcinfoBytes_len (date : List Nat) :
    10 ≤ (warcinfoBytes date).length := by
  simp only [warcinfoBytes, List.length_append]
  rw [show (ascii "WARC/1.0\r\n").length = 10 from rfl]
  omega

/-- The frame holding a record list is at least seven bytes per record, so
byte-count fuel always suffices for the reader. -/
theorem flatten_len (rs : List WarcRecord) :
    7 * rs.length ≤ ((rs.map writeRecordBytes).flatten).length := by
  induction rs with
  | nil => simp
  | cons r t ih =>
    simp only [List.map_cons, List.flatten_cons, List.length_append,
      List.length_cons]
    have := writeRecordBytes_len r
    omega

/-- The record-collection loop turns the concatenated frames back into the
written records, in order, given enough fuel. -/
theorem recordsAux_stream (rs : List WarcRecord) (fuel : Nat)
    (h : ∀ r ∈ rs, 10 ∉ r.request.url) (hf : 7 * rs.length + 1 ≤ fuel) :
    recordsAux fuel ((rs.map writeRecordBytes).flatten) = rs.map .ok := by
  induction rs generalizing fuel with
  | nil =>
    obtain ⟨f, rfl⟩ : ∃ f, fuel = f + 1 := ⟨fuel - 1, by omega⟩
    simp only [List.map_nil, List.flatten_nil]
    rw [recordsAux, nextTriple_nil f]
  | cons r t ih =>
    obtain ⟨f, rfl⟩ : ∃ f, fuel = f + 1 := ⟨fuel - 1, by omega⟩
    simp only [List.map_cons, List.flatten_cons]
    rw [recordsAux, nextTriple_record f r _ (h r (by simp))
      (by simp only [List.length_cons] at hf; omega)]
    dsimp only
    rw [ih f (fun x hx => h x (List.mem_cons_of_mem r hx))
      (by simp only [List.length_cons] at hf; omega)]

/-- C4 (corrected): as long as no record's URL contains a newline byte,
every sequence of WARC records written with `WarcWriter::write` and
finished is read back by `WarcFile::records` as exactly the same sequence
in the same order, every field equal and every body byte-for-byte intact. -/
theorem warc_write_read_roundtrip (date : List Nat) (rs : List WarcRecord)
    (h : ∀ r ∈ rs, 10 ∉ r.request.url) :
    records (writeWarc date rs) = rs.map .ok := by
  unfold records writeWarc
  rw [nextRaw_warcinfo _ date ((rs.map writeRecordBytes).flatten)
    (by have := warcinfoBytes_len date; simp only [List.length_append]; omega)]
  dsimp only
  exact recordsAux_stream rs _ h
    (by have := flatten_len rs; omega)

set_option maxRecDepth 40000 in
/-- Witness: a two-record session — an HTML page and a record with a
non-UTF-8 body — round-trips exactly. -/
theorem warc_write_read_roundtrip_witness :
    (∀ r ∈ ([⟨⟨ascii "http://a.com/"⟩, ⟨ascii "hello", some .html⟩, ⟨123⟩⟩,
        ⟨⟨ascii "http://b.com/x"⟩, ⟨[0, 255, 7], none⟩, ⟨0⟩⟩] : List WarcRecord),
      10 ∉ r.request.url)
    ∧ records (writeWarc (ascii "2024-01-02T03:04:05Z")
        [⟨⟨ascii "http://a.com/"⟩, ⟨ascii "hello", some .html⟩, ⟨123⟩⟩,
         ⟨⟨ascii "http://b.com/x"⟩, ⟨[0, 255, 7], none⟩, ⟨0⟩⟩])
      = [.ok ⟨⟨ascii "http://a.com/"⟩, ⟨ascii "hello", some .html⟩, ⟨123⟩⟩,
         .ok ⟨⟨ascii "http://b.com/x"⟩, ⟨[0, 255, 7], none⟩, ⟨0⟩⟩] :=
  ⟨by decide, warc_write_read_roundtrip _ _ (by decide)⟩

set_option maxRecDepth 40000 in
/-- C4 counterexample: a record whose URL contains a raw newline corrupts
the frame — reading back yields a parse error, not the record, so the
round trip as claimed (for every record) fails. -/
theorem warc_roundtrip_counterexample :
    records (writeWarc (ascii "2024-01-02T03:04:05Z")
        [⟨⟨[97, 10, 98]⟩, ⟨[120], none⟩, ⟨7⟩⟩])
      ≠ [.ok ⟨⟨[97, 10, 98]⟩, ⟨[120], none⟩, ⟨7⟩⟩]
    ∧ (records (writeWarc (ascii "2024-01-02T03:04:05Z")
        [⟨⟨[97, 10, 98]⟩, ⟨[120], none⟩, ⟨7⟩⟩])).head?
      = some (.error (.parse "All header lines must contain a colon"))
    ∧ (10 : Nat) ∈ [97, 10, 98] := by
  refine ⟨by decide, by decide, by decide⟩

end Neos
